import Mathlib

/-!
Shallow embedding of the escore command, register and data-block protocol engine.

A shallow embedding of `sound/soc/meizu/audience-2015/escore.c`.

* The chip and its bus are a state `σ` that only the transport callbacks
  (`escore->bus.ops.*`) can change; each callback is a function on `σ`.
* Every call the driver makes into a callback is appended to `trace`, so that
  statements about what the transport observes can be made.
* `u32` values are naturals reduced modulo `2 ^ 32`; `int` results are integers.
* Memory is little endian (the target is ARM): a `u32` stored at an address is
  read back from its four bytes lowest byte first.
* Delays (`usleep_range`, `msleep`) and log output have no effect on the state
  and are not represented.
* The constants of `escore.h` are fields of `escore_hdr`.
-/

namespace Escore

/-! ## Constants and elementary machine arithmetic -/

/-- Value of the errno EIO on Linux. -/
def EIO : Int := 5

/-- Value of the errno EINVAL on Linux. -/
def EINVAL : Int := 22

/-- Value of the errno ETIMEDOUT on Linux. -/
def ETIMEDOUT : Int := 110

/-- Reduction of a natural number to a `u32`. -/
def u32 (n : Nat) : Nat := n % 2 ^ 32

/-- Conversion of an unsigned value to `int` (two's complement, 32 bit), as done by
`return len` in a function returning `int`. -/
def to_int (n : Nat) : Int :=
  if n % 2 ^ 32 < 2 ^ 31 then ((n % 2 ^ 32 : Nat) : Int) else ((n % 2 ^ 32 : Nat) : Int) - 2 ^ 32

/-- One byte of a little-endian value: byte `i` of `w`. -/
def byte_of (w i : Nat) : Nat := (w / 2 ^ (8 * i)) % 256

/-- The four bytes of a `u32` in memory order. -/
def u32_bytes (w : Nat) : List Nat := [byte_of w 0, byte_of w 1, byte_of w 2, byte_of w 3]

/-- The `u32` held by four bytes in memory order (missing bytes read as zero). -/
def bytes_u32 (b : List Nat) : Nat :=
  b.getD 0 0 % 256 + 2 ^ 8 * (b.getD 1 0 % 256) + 2 ^ 16 * (b.getD 2 0 % 256)
    + 2 ^ 24 * (b.getD 3 0 % 256)

/-- The `u16` held by two bytes in memory order. -/
def bytes_u16 (b : List Nat) : Nat := b.getD 0 0 % 256 + 2 ^ 8 * (b.getD 1 0 % 256)

/-- The macro `cpu_to_be16` on a little-endian CPU: swap the two bytes. -/
def cpu_to_be16 (x : Nat) : Nat := (x % 256) * 256 + (x / 256) % 256

/-- The `n` bytes a transport read stores at the destination: byte `i` is `data[i]`. -/
def bytes_stored (n : Nat) (data : List Nat) : List Nat :=
  (List.range n).map (fun i => data.getD i 0 % 256)

/-- The effect of `memcpy(dst, src, n)` on the bytes at `dst`. -/
def memcpy (dst src : List Nat) (n : Nat) : List Nat :=
  src.take n ++ dst.drop n

/-- Constants and build options that `escore.h` and the kernel configuration supply. -/
structure escore_hdr where
  ES_WDB_MAX_SIZE : Nat
  ES_MAX_RETRIES : Nat
  ES_SPI_MAX_RETRIES : Nat
  ES_WRITE_DATA_BLOCK : Nat
  ES_WRITE_DATA_BLOCK_SPI : Nat
  ES_READ_DATA_BLOCK : Nat
  ES_SYNC_CMD : Nat
  ES_SUPRESS_RESPONSE : Nat
  ES_GET_POWER_STATE : Nat
  ES_PS_NORMAL : Nat
  ES_PS_OVERLAY : Nat
  ES_SET_SMOOTH_MUTE : Nat
  ES_SMOOTH_MUTE_ZERO : Nat
  ES_SET_EVENT_RESP : Nat
  /-- Whether `CONFIG_SND_SOC_ES_SPI || CONFIG_SND_SOC_ES_HIGH_BW_BUS_SPI` holds. -/
  CONFIG_SPI : Bool

/-! ## Session state and transport -/

/-- Command completion mode (`escore->cmd_compl_mode`). -/
inductive compl_mode where
  | ES_CMD_COMP_POLL
  | ES_CMD_COMP_INTR
  deriving DecidableEq, Repr

/-- Interface kinds compared against `pri_intf` and `wakeup_intf`. -/
inductive intf where
  | ES_I2C_INTF
  | ES_SPI_INTF
  | ES_UART_INTF
  | ES_SLIM_INTF
  deriving DecidableEq, Repr

/-- Calls that leave the driver, in the order they are made. -/
inductive Event where
  | cmd (w : Nat)
  | high_bw_cmd (w : Nat)
  | high_bw_write (bytes : List Nat)
  | high_bw_read (n : Nat)
  | rdb (len : Nat) (id : Int)
  | clk_cb (enable : Nat)
  | set_api_intr_wait
  | uart_wakeup
  | gpio_set_value (gpio : Int) (v : Nat)
  | wait_for_completion
  | mutex_lock
  | mutex_unlock
  | pm_get_sync
  | pm_put_autosuspend
  /-- Marker written when an iteration of the loop of `escore_wakeup` begins, holding the
  completion mode at that moment; it is not a call. -/
  | attempt (mode : compl_mode)
  deriving DecidableEq, Repr

/-- The callbacks `escore->bus.ops` (and the other function pointers of the session),
as functions on the state of the chip. A result `rc` is the `int` the callback returns. -/
structure bus_ops (σ : Type) where
  /-- The callback `ops.cmd(escore, cmd, resp)`: result, the word left in `*resp` (which is 0 on entry),
  new chip state. The callback sees the completion mode. -/
  cmd : σ → compl_mode → Nat → Int × Nat × σ
  high_bw_cmd : σ → Nat → Int × Nat × σ
  high_bw_write : σ → List Nat → Int × σ
  /-- The callback `ops.high_bw_read(escore, buf, n)`: result, bytes stored at `buf`, new chip state. -/
  high_bw_read : σ → Nat → Int × List Nat × σ
  bus_to_cpu : Nat → Nat
  /-- The callback `ops.rdb`, when the transport has one. -/
  rdb : Option (σ → Nat → Int → Int × List Nat × σ)
  /-- The callback `escore->escore_uart_wakeup`, when set. -/
  escore_uart_wakeup : Option (σ → Int × σ)
  /-- The call `wait_for_completion_timeout(&escore->cmd_compl, ...)`: the jiffies left, 0 on
  timeout. -/
  wait_for_completion_timeout : σ → Nat × σ
  /-- The call `escore_pm_get_sync()`. -/
  pm_get_sync : σ → Int × σ
  /-- The time `get_monotonic_boottime` reads. -/
  boottime : σ → Nat

/-- Register access descriptor (`struct escore_api_access`): each message is two `u32`
words of which the first `*_msg_len` bytes are used. -/
structure escore_api_access where
  read_msg : Nat × Nat
  read_msg_len : Nat
  write_msg : Nat × Nat
  write_msg_len : Nat
  val_shift : Nat
  val_max : Nat
  deriving DecidableEq, Repr

/-- Platform data (`escore->pdata`). -/
structure esxxx_platform_data where
  gpioa_gpio : Int
  wakeup_gpio : Int
  gpio_a_irq_type : Nat
  gpio_b_irq_type : Nat
  /-- whether `esxxx_clk_cb` is set -/
  esxxx_clk_cb : Bool
  deriving DecidableEq, Repr

/-- The session (`struct escore_priv`) together with the chip state and the trace. -/
structure escore_priv (σ : Type) where
  dev : σ
  trace : List Event
  last_response : Nat
  last_resp_time : Nat
  cmd_compl_mode : compl_mode
  wait_api_intr : Nat
  rdb_read_count : Nat
  api_addr_max : Nat
  api_access : List escore_api_access
  pri_intf : intf
  wakeup_intf : intf
  pdata : esxxx_platform_data

/-- Record a call and the chip state it leaves. -/
def escore_priv.step {σ : Type} (e : escore_priv σ) (ev : Event) (dev : σ) : escore_priv σ :=
  { e with dev := dev, trace := e.trace ++ [ev] }

/-! ## Data-block write -/

/-- The word `ES_WRITE_DATA_BLOCK << 16` as a `u32`. -/
def wdb_ack_word (h : escore_hdr) : Nat := u32 (h.ES_WRITE_DATA_BLOCK <<< 16)

/-- Outcome of a loop body or loop: `out rc` is `goto out` with that `rc`. -/
inductive Flow (α : Type) where
  | out (rc : Int)
  | next (a : α)

/-- The acknowledgement loop `while (count-- > 0)` of `escore_datablock_write` for the
transports other than SPI. The argument `rc` is the value `rc` has on entry; the result
carries the value it has when the loop is left. -/
def wdb_ack_loop {σ : Type} (h : escore_hdr) (ops : bus_ops σ) :
    Nat → escore_priv σ → Int → Flow Int × escore_priv σ
  | 0, e, rc => (Flow.next rc, e)
  | count + 1, e, _ =>
    let r := ops.high_bw_read e.dev 4
    let e := e.step (.high_bw_read 4) r.2.2
    if r.1 < 0 then (Flow.out r.1, e)
    else
      let resp := ops.bus_to_cpu (bytes_u32 (bytes_stored 4 r.2.1))
      if resp ≠ wdb_ack_word h then wdb_ack_loop h ops count e (- EIO)
      else (Flow.next r.1, e)

/-- The acknowledgement loop of `escore_datablock_write` when built for SPI. -/
def wdb_ack_loop_spi {σ : Type} (h : escore_hdr) (ops : bus_ops σ) :
    Nat → escore_priv σ → Int → Flow Int × escore_priv σ
  | 0, e, rc => (Flow.next rc, e)
  | count + 1, e, _ =>
    let r := ops.high_bw_read e.dev 2
    let e := e.step (.high_bw_read 2) r.2.2
    if r.1 < 0 then (Flow.out r.1, e)
    else
      let resp16 := bytes_u16 (bytes_stored 2 r.2.1)
      if resp16 = h.ES_WRITE_DATA_BLOCK_SPI then
        let resp := u32 (cpu_to_be16 resp16 <<< 16)
        let r2 := ops.high_bw_read e.dev 2
        let e := e.step (.high_bw_read 2) r2.2.2
        if r2.1 < 0 then (Flow.out r2.1, e)
        else
          let resp := resp ||| cpu_to_be16 (bytes_u16 (bytes_stored 2 r2.2.1))
          if resp ≠ wdb_ack_word h then wdb_ack_loop_spi h ops count e (- EIO)
          else (Flow.next r2.1, e)
      else wdb_ack_loop_spi h ops count e (- EIO)

/-- The body of `while (remaining)`: one chunk. `off` is `dptr - buf`. The result is the
size of the chunk. -/
def wdb_chunk {σ : Type} (h : escore_hdr) (ops : bus_ops σ) (buf : List Nat)
    (e : escore_priv σ) (off remaining : Nat) : Flow Nat × escore_priv σ :=
  let size := if remaining > h.ES_WDB_MAX_SIZE then h.ES_WDB_MAX_SIZE else remaining
  let cmd := u32 (h.ES_WRITE_DATA_BLOCK <<< 16) ||| (size &&& 0xFFFF)
  let r := ops.high_bw_cmd e.dev cmd
  let e := e.step (.high_bw_cmd cmd) r.2.2
  if r.1 < 0 then (Flow.out r.1, e)
  else if u32 r.2.1 >>> 16 ≠ h.ES_WRITE_DATA_BLOCK then (Flow.out (- EIO), e)
  else
    let chunk := (buf.drop off).take size
    let r := ops.high_bw_write e.dev chunk
    let e := e.step (.high_bw_write chunk) r.2
    if r.1 < 0 then (Flow.out r.1, e)
    else
      let a := if h.CONFIG_SPI then wdb_ack_loop_spi h ops h.ES_SPI_MAX_RETRIES e r.1
               else wdb_ack_loop h ops (h.ES_MAX_RETRIES + 5) e r.1
      match a with
      | (Flow.out rc, e) => (Flow.out rc, e)
      | (Flow.next rc, e) => if rc = - EIO then (Flow.out rc, e) else (Flow.next size, e)

/-- The loop `while (remaining)`. The first argument bounds the number of iterations;
`none` means the bound was reached with bytes remaining. -/
def wdb_loop {σ : Type} (h : escore_hdr) (ops : bus_ops σ) (buf : List Nat) :
    Nat → escore_priv σ → Nat → Nat → Option (Flow Unit × escore_priv σ)
  | _, e, _, 0 => some (Flow.next (), e)
  | 0, _, _, _ + 1 => none
  | fuel + 1, e, off, remaining + 1 =>
    match wdb_chunk h ops buf e off (remaining + 1) with
    | (Flow.out rc, e) => some (Flow.out rc, e)
    | (Flow.next size, e) => wdb_loop h ops buf fuel e (off + size) (remaining + 1 - size)

/-- The function `escore_datablock_write(escore, buf, len)`: the value returned and the session. -/
def escore_datablock_write {σ : Type} (h : escore_hdr) (ops : bus_ops σ) (fuel : Nat)
    (e : escore_priv σ) (buf : List Nat) (len : Nat) : Option (Int × escore_priv σ) :=
  match wdb_loop h ops buf fuel e 0 len with
  | none => none
  | some (Flow.out rc, e) => some (rc, e)
  | some (Flow.next _, e) => some (to_int len, e)

/-! ## Data-block read -/

/-- The loop `for (rdcnt = 0; rdcnt < len;)` of `escore_datablock_read`. The last argument
is what has been stored at the caller's `buf` so far; the first bounds the number of
iterations (`none`: the bound was reached). -/
def rdb_loop {σ : Type} (ops : bus_ops σ) :
    Nat → escore_priv σ → Nat → Nat → List Nat → Option (Flow Unit × List Nat × escore_priv σ)
  | 0, e, rdcnt, len, buf => if rdcnt < len then none else some (Flow.next (), buf, e)
  | fuel + 1, e, rdcnt, len, buf =>
    if rdcnt < len then
      let r := ops.high_bw_read e.dev 4
      let e := e.step (.high_bw_read 4) r.2.2
      if r.1 < 0 then some (Flow.out r.1, buf, e)
      else rdb_loop ops fuel e (rdcnt + 4) len (buf ++ bytes_stored 4 r.2.1)
    else some (Flow.next (), buf, e)

/-- The function `escore_datablock_read(escore, buf, len, id)`: the value returned, the bytes stored at
the caller's `buf` (in address order) and the session. -/
def escore_datablock_read {σ : Type} (h : escore_hdr) (ops : bus_ops σ)
    (e : escore_priv σ) (len : Nat) (id : Int) : Option (Int × List Nat × escore_priv σ) :=
  let e := { e with rdb_read_count := 0 }
  match ops.rdb with
  | some rdb =>
    let r := rdb e.dev len id
    some (r.1, r.2.1, e.step (.rdb len id) r.2.2)
  | none =>
    let cmd := u32 (h.ES_READ_DATA_BLOCK <<< 16) ||| (id % 0x10000).toNat
    let r := ops.high_bw_cmd e.dev cmd
    let e := e.step (.high_bw_cmd cmd) r.2.2
    if r.1 < 0 then some (r.1, [], e)
    else
      let resp := u32 r.2.1
      if resp >>> 16 ≠ h.ES_READ_DATA_BLOCK then some (- EINVAL, [], e)
      else
        let size := resp &&& 0xFFFF
        if size = 0 ∨ size % 4 ≠ 0 then some (- EINVAL, [], e)
        else
          let flush_extra_blk := if len ≠ size ∧ len < size then (size - len) % 4 else 0
          let len := if len ≠ size ∧ ¬ len < size then size else len
          match rdb_loop ops len e 0 len [] with
          | none => none
          | some (Flow.out rc, buf, e) => some (rc, buf, e)
          | some (Flow.next _, buf, e) =>
            let e := { e with rdb_read_count := size }
            if flush_extra_blk ≠ 0 then
              let r := ops.high_bw_read e.dev flush_extra_blk
              let e := e.step (.high_bw_read flush_extra_blk) r.2.2
              if r.1 < 0 then some (r.1, buf, e) else some (to_int len, buf, e)
            else some (to_int len, buf, e)

/-! ## Single commands -/

/-- The function `escore_cmd_nopm(escore, cmd, resp)`: the value returned, the word left in `*resp`,
the session. The test `resp == 0` of the source compares the pointer `resp`, through which
`*resp = 0` has just been stored, so it is false. -/
def escore_cmd_nopm {σ : Type} (ops : bus_ops σ) (e : escore_priv σ) (cmd : Nat) :
    Int × Nat × escore_priv σ :=
  let resp_is_null := false
  let sr := cmd &&& 2 ^ 28
  let r := ops.cmd e.dev e.cmd_compl_mode cmd
  let err := r.1
  let resp := u32 r.2.1
  let e := e.step (.cmd cmd) r.2.2
  if err ≠ 0 ∨ sr ≠ 0 then (err, resp, e)
  else if resp_is_null then (- ETIMEDOUT, resp, e)
  else (err, resp, { e with last_response := resp, last_resp_time := ops.boottime e.dev })

/-- The part of a locked operation between `mutex_lock` and `mutex_unlock`:
`escore_pm_get_sync`, then the operation when the result is above -1, then
`escore_pm_put_autosuspend`. `dflt` is the value returned when the operation is not run,
given the result of `escore_pm_get_sync`. -/
def with_pm {σ α : Type} (ops : bus_ops σ) (e : escore_priv σ) (dflt : Int → α)
    (op : escore_priv σ → α × escore_priv σ) : α × escore_priv σ :=
  let r := ops.pm_get_sync e.dev
  let e := e.step .pm_get_sync r.2
  if r.1 > -1 then
    let x := op e
    (x.1, { x.2 with trace := x.2.trace ++ [Event.pm_put_autosuspend] })
  else (dflt r.1, e)

/-- A locked operation: `mutex_lock(&escore->access_lock)`, the body, `mutex_unlock`. -/
def with_lock {σ α : Type} (e : escore_priv σ)
    (body : escore_priv σ → α × escore_priv σ) : α × escore_priv σ :=
  let x := body { e with trace := e.trace ++ [Event.mutex_lock] }
  (x.1, { x.2 with trace := x.2.trace ++ [Event.mutex_unlock] })

/-- The function `escore_cmd_locked(escore, cmd, resp)`: value returned, `*resp` when it was written. -/
def escore_cmd_locked {σ : Type} (ops : bus_ops σ) (e : escore_priv σ) (cmd : Nat) :
    (Int × Option Nat) × escore_priv σ :=
  with_lock e (fun e => with_pm ops e (fun ret => (ret, none))
    (fun e => let r := escore_cmd_nopm ops e cmd; ((r.1, some r.2.1), r.2.2)))

/-! ## Register access -/

/-- Modelled from the spec: `get_bitmask_order` (`include/linux/bitops.h`, not among the
sources) gives the exponent of the value mask, `ceil(log2(value_max+1))`; that is the
position of the highest set bit of its argument counted from 1 (`fls`), 0 for 0. -/
def fls : Nat → Nat → Nat
  | 0, _ => 0
  | bits + 1, x => if x = 0 then 0 else fls bits (x / 2) + 1

/-- The exponent of the value mask of an `unsigned int`, see `fls`. -/
def get_bitmask_order (count : Nat) : Nat := fls 32 count

/-- Direction of a register message (`ES_MSG_READ`, `ES_MSG_WRITE`). -/
inductive msg_type where
  | ES_MSG_READ
  | ES_MSG_WRITE
  deriving DecidableEq, Repr

/-- The eight bytes of the array `u32 api_word[2]`. -/
def api_word_bytes (w : Nat × Nat) : List Nat := u32_bytes w.1 ++ u32_bytes w.2

/-- The element `api_word[i]` of an array of `u32` stored in `b`. -/
def api_word_at (b : List Nat) (i : Nat) : Nat := bytes_u32 (b.drop (4 * i))

/-- The function `escore_prepare_msg(escore, reg, value, msg, len, msg_type)`: the value returned, the
bytes at `msg` and the value of `*len` afterwards. `none` stands for the read of
`escore->api_access[reg]` past the end of the table. Message lengths are taken to be at
most 8, the size of `api_word`.

The source shifts the `int` 1 by the mask order and the `unsigned int` field by
`val_shift`. C defines the first shift for an order of at most 30 (`val_max < 2 ^ 30`) and
the second for `val_shift` of at most 31. For larger counts the source has no defined
result; the definition then takes the shift of natural numbers reduced modulo `2 ^ 32`,
which a compiled driver need not produce, and the theorems on the encoded value are stated
for the defined counts only. -/
def escore_prepare_msg {σ : Type} (e : escore_priv σ) (reg value : Nat) (msg : List Nat)
    (len : Nat) (mt : msg_type) : Option (Int × List Nat × Nat) :=
  if reg > e.api_addr_max then some (- EINVAL, msg, len)
  else
    match e.api_access[reg]? with
    | none => none
    | some api_access =>
      let val_mask := u32 (u32 (1 <<< get_bitmask_order api_access.val_max) + (2 ^ 32 - 1))
      let api_word := api_word_bytes (0, 0)
      match mt with
      | .ES_MSG_WRITE =>
        let msg_len := api_access.write_msg_len
        let api_word := memcpy api_word (api_word_bytes api_access.write_msg) msg_len
        let w0 := api_word_at api_word 0
        let w1 := api_word_at api_word 1
        let v := u32 ((val_mask &&& value) <<< api_access.val_shift)
        let api_word :=
          if msg_len = 8 then api_word_bytes (w0, w1 ||| v)
          else if msg_len = 4 then api_word_bytes (w0 ||| v, w1)
          else api_word
        some (0, memcpy msg api_word msg_len, msg_len)
      | .ES_MSG_READ =>
        let msg_len := api_access.read_msg_len
        let api_word := memcpy api_word (api_word_bytes api_access.read_msg) msg_len
        some (0, memcpy msg api_word msg_len, msg_len)

/-- The loop `for (i = 0; i < msg_len / 4; i++)` of `_escore_write` over the words
`api_word[i]`; the last argument is the value of `rc` on entry. -/
def escore_write_words {σ : Type} (ops : bus_ops σ) :
    List Nat → escore_priv σ → Int → Int × escore_priv σ
  | [], e, rc => (rc, e)
  | w :: ws, e, _ =>
    let r := escore_cmd_nopm ops e w
    if r.1 < 0 then (r.1, r.2.2) else escore_write_words ops ws r.2.2 r.1

/-- The function `_escore_write(codec, reg, value)`; the loop sends `api_word[0]` up to
`api_word[msg_len / 4 - 1]`. -/
def _escore_write {σ : Type} (ops : bus_ops σ) (e : escore_priv σ) (reg value : Nat) :
    Option (Int × escore_priv σ) :=
  match escore_prepare_msg e reg value (api_word_bytes (0, 0)) 0 .ES_MSG_WRITE with
  | none => none
  | some (rc, api_word, msg_len) =>
    if rc ≠ 0 then some (rc, e)
    else
      some (escore_write_words ops
        ((List.range (msg_len / 4)).map (fun i => api_word_at api_word i)) e rc)

/-- The function `_escore_read(codec, reg)`; the result is an `unsigned int`. -/
def _escore_read {σ : Type} (ops : bus_ops σ) (e : escore_priv σ) (reg : Nat) :
    Option (Nat × escore_priv σ) :=
  match escore_prepare_msg e reg 0 (api_word_bytes (0, 0)) 0 .ES_MSG_READ with
  | none => none
  | some (rc, api_word, _) =>
    if rc ≠ 0 then some (0, e)
    else
      let r := escore_cmd_nopm ops e (api_word_at api_word 0)
      if r.1 < 0 then some ((r.1 % 2 ^ 32).toNat, r.2.2)
      else some (r.2.2.last_response &&& 0xffff, r.2.2)

/-- The function `escore_write_locked(codec, reg, value)`. -/
def escore_write_locked {σ : Type} (ops : bus_ops σ) (e : escore_priv σ) (reg value : Nat) :
    Option Int × escore_priv σ :=
  with_lock e (fun e => with_pm ops e (fun ret => some ret)
    (fun e => match _escore_write ops e reg value with
      | none => (none, e)
      | some r => (some r.1, r.2)))

/-- The function `escore_read_locked(codec, reg)`; the value returned is 0 when the
operation is not run. -/
def escore_read_locked {σ : Type} (ops : bus_ops σ) (e : escore_priv σ) (reg : Nat) :
    Option Nat × escore_priv σ :=
  with_lock e (fun e => with_pm ops e (fun _ => some 0)
    (fun e => match _escore_read ops e reg with
      | none => (none, e)
      | some r => (some r.1, r.2)))

/-! ## Wakeup -/

/-- The function `escore_api_intr_wait_completion(escore)`. -/
def escore_api_intr_wait_completion {σ : Type} (ops : bus_ops σ) (e : escore_priv σ) :
    Int × escore_priv σ :=
  let r := ops.wait_for_completion_timeout e.dev
  let e := e.step .wait_for_completion r.2
  if r.1 = 0 then (- ETIMEDOUT, { e with wait_api_intr := 0 }) else (0, e)

/-- How one pass through the body of the `do ... while` of `escore_wakeup` ends:
`exit rc` is `goto escore_wakeup_exit`; `cond rc cmd` reaches the loop condition (at the
end of the body or by `continue`) with these values of `rc` and `cmd`. -/
inductive wakeup_pass where
  | exit (rc : Int)
  | cond (rc : Int) (cmd : Nat)
  deriving DecidableEq, Repr

/-- The wake signal: `escore_uart_wakeup` or the pulses on the wakeup pin. The result is
`some rc` when the body is left by `goto escore_wakeup_exit`. -/
def wakeup_toggle {σ : Type} (ops : bus_ops σ) (e : escore_priv σ) :
    Option Int × escore_priv σ :=
  match (if e.wakeup_intf = intf.ES_UART_INTF then ops.escore_uart_wakeup else none) with
  | some uart_wakeup =>
    let r := uart_wakeup e.dev
    let e := e.step .uart_wakeup r.2
    if r.1 ≠ 0 then (some r.1, e) else (none, e)
  | none =>
    if e.pdata.wakeup_gpio ≠ -1 then
      (none, { e with trace := e.trace ++
        [Event.gpio_set_value e.pdata.wakeup_gpio 1, Event.gpio_set_value e.pdata.wakeup_gpio 0,
         Event.gpio_set_value e.pdata.wakeup_gpio 1, Event.gpio_set_value e.pdata.wakeup_gpio 0] })
    else (none, e)

/-- The synchronize step at the end of the body: the switch to interrupt mode when there
is an interrupt line, then the plain synchronize command and the check of its echo. -/
def wakeup_sync {σ : Type} (h : escore_hdr) (ops : bus_ops σ) (e : escore_priv σ) (cmd : Nat) :
    wakeup_pass × escore_priv σ :=
  if e.pdata.gpioa_gpio ≠ -1 then
    let cmd := cmd ||| e.pdata.gpio_a_irq_type
    let e := { e with cmd_compl_mode := compl_mode.ES_CMD_COMP_INTR }
    let r := escore_cmd_nopm ops e (cmd ||| u32 (h.ES_SUPRESS_RESPONSE <<< 16))
    if r.1 < 0 then
      (.exit r.1, { r.2.2 with cmd_compl_mode := compl_mode.ES_CMD_COMP_POLL })
    else
      let r := escore_cmd_nopm ops r.2.2 cmd
      if cmd ≠ r.2.1 then (.cond (- EIO) cmd, r.2.2) else (.cond r.1 cmd, r.2.2)
  else
    let r := escore_cmd_nopm ops e cmd
    if cmd ≠ r.2.1 then (.cond (- EIO) cmd, r.2.2) else (.cond r.1 cmd, r.2.2)

/-- Modelled from the spec: `escore_set_api_intr_wait` (`escore.h`, not among the sources)
arms the wait for the completion signal; the call is recorded and the flag
`wait_api_intr`, which `escore_api_intr_wait_completion` clears on a timeout, is set. -/
def escore_set_api_intr_wait {σ : Type} (e : escore_priv σ) : escore_priv σ :=
  { e with trace := e.trace ++ [Event.set_api_intr_wait], wait_api_intr := 1 }

/-- One pass through the body of the `do ... while` of `escore_wakeup`. The pass begins by
writing the marker `attempt`. -/
def wakeup_body {σ : Type} (h : escore_hdr) (ops : bus_ops σ) (e : escore_priv σ) (cmd : Nat) :
    wakeup_pass × escore_priv σ :=
  let e := { e with trace := e.trace ++ [Event.attempt e.cmd_compl_mode] }
  let e := if e.pdata.gpioa_gpio ≠ -1 then escore_set_api_intr_wait e else e
  match wakeup_toggle ops e with
  | (some rc, e) => (.exit rc, e)
  | (none, e) =>
    let w := if e.pdata.gpioa_gpio ≠ -1 then escore_api_intr_wait_completion ops e else (0, e)
    if w.1 ≠ 0 then (.exit w.1, w.2)
    else
      let e := w.2
      if e.pri_intf = intf.ES_SPI_INTF then
        let r := escore_cmd_nopm ops e (u32 (h.ES_GET_POWER_STATE <<< 16))
        if r.1 < 0 then (.cond r.1 cmd, r.2.2)
        else if r.2.1 ≠ h.ES_PS_NORMAL ∧ r.2.1 ≠ h.ES_PS_OVERLAY then (.cond (-1) cmd, r.2.2)
        else wakeup_sync h ops r.2.2 cmd
      else wakeup_sync h ops e cmd

/-- The loop `do ... while (rc && --retry)`. The first argument is `retry - 1`, the number
of further passes the loop may still make after this one. -/
def wakeup_loop {σ : Type} (h : escore_hdr) (ops : bus_ops σ) :
    Nat → escore_priv σ → Nat → wakeup_pass × escore_priv σ
  | 0, e, cmd => wakeup_body h ops e cmd
  | more + 1, e, cmd =>
    match wakeup_body h ops e cmd with
    | (.exit rc, e) => (.exit rc, e)
    | (.cond rc cmd, e) => if rc ≠ 0 then wakeup_loop h ops more e cmd else (.cond rc cmd, e)

/-- The command that sets the smooth mute rate to zero. -/
def smooth_mute_cmd (h : escore_hdr) : Nat :=
  u32 (h.ES_SET_SMOOTH_MUTE <<< 16) ||| h.ES_SMOOTH_MUTE_ZERO

/-- The function `escore_wakeup(escore)`, with `retry = 20`. -/
def escore_wakeup {σ : Type} (h : escore_hdr) (ops : bus_ops σ) (e : escore_priv σ) :
    Int × escore_priv σ :=
  let e := { e with cmd_compl_mode := compl_mode.ES_CMD_COMP_POLL }
  let e := if e.pdata.esxxx_clk_cb then { e with trace := e.trace ++ [Event.clk_cb 1] } else e
  match wakeup_loop h ops 19 e (u32 (h.ES_SYNC_CMD <<< 16)) with
  | (.exit rc, e) => (rc, e)
  | (.cond _ _, e) =>
    let r := escore_cmd_nopm ops e (smooth_mute_cmd h)
    (r.1, r.2.2)

/-- The completion modes recorded by the markers `attempt`, one for each attempt. -/
def attempts : List Event → List compl_mode
  | [] => []
  | .attempt m :: t => m :: attempts t
  | _ :: t => attempts t

/-! ## Observations on a trace -/

/-- The command words given to `high_bw_cmd`, in order. -/
def hb_cmds : List Event → List Nat
  | [] => []
  | .high_bw_cmd w :: t => w :: hb_cmds t
  | _ :: t => hb_cmds t

/-- The byte ranges given to `high_bw_write`, in order. -/
def hb_writes : List Event → List (List Nat)
  | [] => []
  | .high_bw_write b :: t => b :: hb_writes t
  | _ :: t => hb_writes t

/-- The sizes asked of `high_bw_read`, in order. -/
def hb_reads : List Event → List Nat
  | [] => []
  | .high_bw_read n :: t => n :: hb_reads t
  | _ :: t => hb_reads t

/-- The command words given to `ops.cmd`, in order. -/
def bus_cmds : List Event → List Nat
  | [] => []
  | .cmd w :: t => w :: bus_cmds t
  | _ :: t => bus_cmds t

/-- A transport that acknowledges every chunk of a data-block write. `Idle` holds of the
chip states in which a chunk may start, `Written` of those in which the data of a chunk
has been written and its acknowledgement is due: `high_bw_cmd` answers with the opcode
`ES_WRITE_DATA_BLOCK`, `high_bw_write` succeeds, and the word read next is
`ES_WRITE_DATA_BLOCK << 16` (read as two halves when built for SPI). -/
structure wdb_acking {σ : Type} (h : escore_hdr) (ops : bus_ops σ)
    (Idle Written : σ → Prop) : Prop where
  cmd_ok : ∀ s w, Idle s →
    0 ≤ (ops.high_bw_cmd s w).1 ∧ u32 (ops.high_bw_cmd s w).2.1 >>> 16 = h.ES_WRITE_DATA_BLOCK
      ∧ Idle (ops.high_bw_cmd s w).2.2
  write_ok : ∀ s b, Idle s →
    0 ≤ (ops.high_bw_write s b).1 ∧ Written (ops.high_bw_write s b).2
  ack_ok : h.CONFIG_SPI = false → ∀ s, Written s →
    0 ≤ (ops.high_bw_read s 4).1
      ∧ ops.bus_to_cpu (bytes_u32 (bytes_stored 4 (ops.high_bw_read s 4).2.1)) = wdb_ack_word h
      ∧ Idle (ops.high_bw_read s 4).2.2
  ack_spi_ok : h.CONFIG_SPI = true → ∀ s, Written s →
    0 ≤ (ops.high_bw_read s 2).1
      ∧ bytes_u16 (bytes_stored 2 (ops.high_bw_read s 2).2.1) = h.ES_WRITE_DATA_BLOCK_SPI
      ∧ 0 ≤ (ops.high_bw_read (ops.high_bw_read s 2).2.2 2).1
      ∧ u32 (cpu_to_be16 h.ES_WRITE_DATA_BLOCK_SPI <<< 16) |||
          cpu_to_be16 (bytes_u16 (bytes_stored 2
            (ops.high_bw_read (ops.high_bw_read s 2).2.2 2).2.1)) = wdb_ack_word h
      ∧ Idle (ops.high_bw_read (ops.high_bw_read s 2).2.2 2).2.2

/-- The reads of one acknowledgement that arrives at once. -/
def wdb_ack_reads (h : escore_hdr) : List Event :=
  if h.CONFIG_SPI then [Event.high_bw_read 2, Event.high_bw_read 2] else [Event.high_bw_read 4]

/-- The size of the next chunk when `remaining` bytes are left. -/
def wdb_size (h : escore_hdr) (remaining : Nat) : Nat :=
  if remaining > h.ES_WDB_MAX_SIZE then h.ES_WDB_MAX_SIZE else remaining

/-- Number of acknowledgement reads the build allows per chunk. -/
def wdb_ack_budget (h : escore_hdr) : Nat :=
  if h.CONFIG_SPI then h.ES_SPI_MAX_RETRIES else h.ES_MAX_RETRIES + 5

/-! ## Sample configuration and simulated transports -/

/-- A header with the opcode 0x802f named by the comment in `escore_datablock_write` and
small limits. -/
def sample_hdr : escore_hdr :=
  { ES_WDB_MAX_SIZE := 4, ES_MAX_RETRIES := 5, ES_SPI_MAX_RETRIES := 5,
    ES_WRITE_DATA_BLOCK := 0x802f, ES_WRITE_DATA_BLOCK_SPI := 0x2f80,
    ES_READ_DATA_BLOCK := 0x802e, ES_SYNC_CMD := 0x8000, ES_SUPRESS_RESPONSE := 0x1000,
    ES_GET_POWER_STATE := 0x800f, ES_PS_NORMAL := 4, ES_PS_OVERLAY := 5,
    ES_SET_SMOOTH_MUTE := 0x804e, ES_SMOOTH_MUTE_ZERO := 0, ES_SET_EVENT_RESP := 0x801a,
    CONFIG_SPI := false }

/-- A transport without state: every command is echoed, the high-bandwidth command is
answered by `0x802f0000`, every write succeeds and every read of the high-bandwidth
channel yields the bytes of `0x802f0000`. -/
def echo_ops : bus_ops Unit :=
  { cmd := fun _ _ w => (0, w, ()),
    high_bw_cmd := fun _ _ => (0, 0x802f0000, ()),
    high_bw_write := fun _ _ => (0, ()),
    high_bw_read := fun _ _ => (0, [0, 0, 0x2f, 0x80], ()),
    bus_to_cpu := fun w => w,
    rdb := none,
    escore_uart_wakeup := none,
    wait_for_completion_timeout := fun _ => (1, ()),
    pm_get_sync := fun _ => (0, ()),
    boottime := fun _ => 0 }

/-- A session over a chip state `dev` with an empty trace and register table. -/
def sample_priv {σ : Type} (dev : σ) : escore_priv σ :=
  { dev := dev, trace := [], last_response := 0, last_resp_time := 0,
    cmd_compl_mode := compl_mode.ES_CMD_COMP_POLL, wait_api_intr := 0, rdb_read_count := 0,
    api_addr_max := 0, api_access := [], pri_intf := intf.ES_I2C_INTF,
    wakeup_intf := intf.ES_I2C_INTF,
    pdata := { gpioa_gpio := -1, wakeup_gpio := -1, gpio_a_irq_type := 0,
               gpio_b_irq_type := 0, esxxx_clk_cb := false } }

/-- The command word of `escore_datablock_read` for the block `id`. -/
def rdb_cmd_word (h : escore_hdr) (id : Int) : Nat :=
  u32 (h.ES_READ_DATA_BLOCK <<< 16) ||| (id % 0x10000).toNat

/-- A transport for data-block reads: the high-bandwidth command is answered by the opcode
0x802e with `size` in the low half, every read succeeds and stores `0a 0b 0c 0d`. -/
def rdb_sim_ops (size : Nat) : bus_ops Unit :=
  { echo_ops with
    high_bw_cmd := fun _ _ => (0, 0x802e0000 ||| size, ()),
    high_bw_read := fun _ _ => (0, [0xa, 0xb, 0xc, 0xd], ()) }

/-! ## The register codec in the words of the specification -/

/-- The value mask as the specification gives it: `2^ceil(log2(value_max+1)) - 1`, taken
modulo `2 ^ 32`. -/
def spec_mask (value_max : Nat) : Nat := (2 ^ Nat.clog 2 (value_max + 1) - 1) % 2 ^ 32

/-- Decoding of a write message as the specification gives it: the value lane (word 0 of
a message of 4 bytes, word 1 of a message of 8 bytes) shifted right by `value_shift` and
masked with the value mask of the register. -/
def decode_value (a : escore_api_access) (msg : List Nat) (len : Nat) : Nat :=
  (api_word_at msg (if len = 4 then 0 else 1) >>> a.val_shift) &&& spec_mask a.val_max

/-- The value lane of the write template of a register. -/
def write_lane (a : escore_api_access) : Nat :=
  if a.write_msg_len = 4 then a.write_msg.1 else a.write_msg.2

/-- The register of the end-to-end scenario of the specification: write template
`00 00 00 00`, `value_max = 255`, `value_shift = 0`, length 4. -/
def sample_entry : escore_api_access :=
  { read_msg := (0, 0), read_msg_len := 4, write_msg := (0, 0), write_msg_len := 4,
    val_shift := 0, val_max := 255 }

/-- A table of `0x11` registers; the register `0x10` is its last one. -/
def sample_table : List escore_api_access := List.replicate 0x11 sample_entry

/-- A session over the sample table, `api_addr_max` being the size of the table. -/
def table_priv {σ : Type} (dev : σ) : escore_priv σ :=
  { sample_priv dev with api_addr_max := 0x11, api_access := sample_table }

/-- A register whose write template has a bit set inside its value field. -/
def overlap_entry : escore_api_access :=
  { read_msg := (0x80310000, 0), read_msg_len := 4, write_msg := (0x90310001, 0),
    write_msg_len := 4, val_shift := 0, val_max := 255 }

/-- A register with two message words and a shifted field of three bits. -/
def wide_entry : escore_api_access :=
  { read_msg := (0x80170002, 0), read_msg_len := 4, write_msg := (0x90170002, 0x90180000),
    write_msg_len := 8, val_shift := 4, val_max := 6 }

/-- A session whose table holds `overlap_entry` and `wide_entry`. -/
def codec_priv {σ : Type} (dev : σ) : escore_priv σ :=
  { sample_priv dev with api_addr_max := 2, api_access := [overlap_entry, wide_entry] }

/-! ## Simulated devices for the wakeup sequence -/

/-- The plain synchronize word `escore_wakeup` sends: `ES_SYNC_CMD << 16`, with the
interrupt type OR-ed in when there is an interrupt line. -/
def sync_word (h : escore_hdr) (pd : esxxx_platform_data) : Nat :=
  if pd.gpioa_gpio ≠ -1 then u32 (h.ES_SYNC_CMD <<< 16) ||| pd.gpio_a_irq_type
  else u32 (h.ES_SYNC_CMD <<< 16)

/-- A simulated device for the wakeup sequence. `left s` is the number of synchronize
echoes the device in state `s` will still reject. Every step other than the echo succeeds
and leaves `left` as it is: the wake signal, the wait for the interrupt, the power state
query (answered by an accepted state), the switch to interrupt mode and the smooth mute
command. The plain synchronize command is answered by another word while `left` is not
zero, which lowers `left` by one, and is echoed with result 0 when `left` is zero. -/
structure sync_device {σ : Type} (h : escore_hdr) (ops : bus_ops σ)
    (pd : esxxx_platform_data) (left : σ → Nat) : Prop where
  uart_ok : ∀ f s, ops.escore_uart_wakeup = some f → (f s).1 = 0 ∧ left (f s).2 = left s
  wait_ok : ∀ s, (ops.wait_for_completion_timeout s).1 ≠ 0
    ∧ left (ops.wait_for_completion_timeout s).2 = left s
  power_ok : ∀ s m, (ops.cmd s m (u32 (h.ES_GET_POWER_STATE <<< 16))).1 = 0
    ∧ (u32 (ops.cmd s m (u32 (h.ES_GET_POWER_STATE <<< 16))).2.1 = h.ES_PS_NORMAL
        ∨ u32 (ops.cmd s m (u32 (h.ES_GET_POWER_STATE <<< 16))).2.1 = h.ES_PS_OVERLAY)
    ∧ left (ops.cmd s m (u32 (h.ES_GET_POWER_STATE <<< 16))).2.2 = left s
  intr_ok : ∀ s m, (ops.cmd s m (sync_word h pd ||| u32 (h.ES_SUPRESS_RESPONSE <<< 16))).1 = 0
    ∧ left (ops.cmd s m (sync_word h pd ||| u32 (h.ES_SUPRESS_RESPONSE <<< 16))).2.2 = left s
  sync_reject : ∀ s m, 0 < left s →
    u32 (ops.cmd s m (sync_word h pd)).2.1 ≠ sync_word h pd
      ∧ left (ops.cmd s m (sync_word h pd)).2.2 = left s - 1
  sync_accept : ∀ s m, left s = 0 →
    (ops.cmd s m (sync_word h pd)).1 = 0 ∧ u32 (ops.cmd s m (sync_word h pd)).2.1 = sync_word h pd
  mute_ok : ∀ s m, (ops.cmd s m (smooth_mute_cmd h)).1 = 0

/-- What a step of the wakeup sequence other than the start of an attempt keeps: the
platform data and interfaces, and a trace extended by calls only. -/
def wk_frame {σ : Type} (e e1 : escore_priv σ) : Prop :=
  (∃ ta, e1.trace = e.trace ++ ta ∧ attempts ta = [])
    ∧ e1.pdata = e.pdata ∧ e1.pri_intf = e.pri_intf ∧ e1.wakeup_intf = e.wakeup_intf

/-- A device that echoes the synchronize word `0x80000000` once it has rejected it as
often as its state says, answers the power state query `0x800f0000` by the state 4 and
echoes every other command. -/
def countdown_ops : bus_ops Nat :=
  { cmd := fun s _ w =>
      if w = 0x80000000 then (if s = 0 then (0, w, 0) else (0, 0, s - 1))
      else if w = 0x800f0000 then (0, 4, s) else (0, w, s),
    high_bw_cmd := fun s w => (0, w, s),
    high_bw_write := fun s _ => (0, s),
    high_bw_read := fun s _ => (0, [], s),
    bus_to_cpu := fun w => w,
    rdb := none,
    escore_uart_wakeup := none,
    wait_for_completion_timeout := fun s => (1, s),
    pm_get_sync := fun s => (0, s),
    boottime := fun _ => 0 }

/-- A device that answers every command with result 0 and the word 0, so that it never
echoes the synchronize word. -/
def silent_ops : bus_ops Unit :=
  { echo_ops with cmd := fun _ _ _ => (0, 0, ()) }

/-! ## Further sample sessions and transports -/

/-- The echoing transport with a power manager whose resume vote fails with -1. -/
def pm_fail_ops : bus_ops Unit :=
  { echo_ops with pm_get_sync := fun _ => (-1, ()) }

/-- A transport for data-block reads that has the callback `rdb`: the high-bandwidth
channel is that of `rdb_sim_ops 8` (the device reports 8 bytes and every read succeeds);
the callback stores the bytes asked for and returns 0. -/
def rdb_hook_ops : bus_ops Unit :=
  { rdb_sim_ops 8 with rdb := some (fun _ len _ => (0, List.replicate len 0xa, ())) }

/-- A session with a cached response `0x1234` taken at time 7. -/
def stale_priv {σ : Type} (dev : σ) : escore_priv σ :=
  { sample_priv dev with last_response := 0x1234, last_resp_time := 7 }

/-- A session of a device with an interrupt line (`gpioa_gpio = 3`, interrupt type 1). -/
def intr_priv {σ : Type} (dev : σ) : escore_priv σ :=
  { sample_priv dev with
    pdata := { gpioa_gpio := 3, wakeup_gpio := -1, gpio_a_irq_type := 1,
               gpio_b_irq_type := 0, esxxx_clk_cb := false } }

/-! ## Transports whose acknowledgement is late or missing -/

/-- One acknowledgement attempt of `escore_datablock_write` made in the chip state `s`
succeeds in its reads but does not yield the word `ES_WRITE_DATA_BLOCK << 16`; `P` holds
of the chip state after the attempt. Built for SPI the attempt reads a first half and,
when that is `ES_WRITE_DATA_BLOCK_SPI`, a second half; otherwise it is one read of 4
bytes. -/
def ack_rejected {σ : Type} (h : escore_hdr) (ops : bus_ops σ) (s : σ) (P : σ → Prop) : Prop :=
  if h.CONFIG_SPI then
    0 ≤ (ops.high_bw_read s 2).1
      ∧ ((bytes_u16 (bytes_stored 2 (ops.high_bw_read s 2).2.1) ≠ h.ES_WRITE_DATA_BLOCK_SPI
            ∧ P (ops.high_bw_read s 2).2.2)
          ∨ (bytes_u16 (bytes_stored 2 (ops.high_bw_read s 2).2.1) = h.ES_WRITE_DATA_BLOCK_SPI
            ∧ 0 ≤ (ops.high_bw_read (ops.high_bw_read s 2).2.2 2).1
            ∧ u32 (cpu_to_be16 h.ES_WRITE_DATA_BLOCK_SPI <<< 16) |||
                cpu_to_be16 (bytes_u16 (bytes_stored 2
                  (ops.high_bw_read (ops.high_bw_read s 2).2.2 2).2.1)) ≠ wdb_ack_word h
            ∧ P (ops.high_bw_read (ops.high_bw_read s 2).2.2 2).2.2))
  else
    0 ≤ (ops.high_bw_read s 4).1
      ∧ ops.bus_to_cpu (bytes_u32 (bytes_stored 4 (ops.high_bw_read s 4).2.1)) ≠ wdb_ack_word h
      ∧ P (ops.high_bw_read s 4).2.2

/-- One acknowledgement attempt made in the chip state `s` succeeds in its reads and
yields the word `ES_WRITE_DATA_BLOCK << 16`; `P` holds of the chip state afterwards. -/
def ack_accepted {σ : Type} (h : escore_hdr) (ops : bus_ops σ) (s : σ) (P : σ → Prop) : Prop :=
  if h.CONFIG_SPI then
    0 ≤ (ops.high_bw_read s 2).1
      ∧ bytes_u16 (bytes_stored 2 (ops.high_bw_read s 2).2.1) = h.ES_WRITE_DATA_BLOCK_SPI
      ∧ 0 ≤ (ops.high_bw_read (ops.high_bw_read s 2).2.2 2).1
      ∧ u32 (cpu_to_be16 h.ES_WRITE_DATA_BLOCK_SPI <<< 16) |||
          cpu_to_be16 (bytes_u16 (bytes_stored 2
            (ops.high_bw_read (ops.high_bw_read s 2).2.2 2).2.1)) = wdb_ack_word h
      ∧ P (ops.high_bw_read (ops.high_bw_read s 2).2.2 2).2.2
  else
    0 ≤ (ops.high_bw_read s 4).1
      ∧ ops.bus_to_cpu (bytes_u32 (bytes_stored 4 (ops.high_bw_read s 4).2.1)) = wdb_ack_word h
      ∧ P (ops.high_bw_read s 4).2.2

/-- A transport that never acknowledges: in every chip state in which an acknowledgement
is due (`Due`) an attempt is rejected, an acknowledgement is still due afterwards, and the
chip has counted the attempt in `count`. -/
def wdb_never_acks {σ : Type} (h : escore_hdr) (ops : bus_ops σ) (Due : σ → Prop)
    (count : σ → Nat) : Prop :=
  ∀ s, Due s → ack_rejected h ops s (fun s1 => Due s1 ∧ count s1 = count s + 1)

/-- A transport whose acknowledgement arrives within the budget of attempts: `left s` is
the number of attempts the chip in state `s` still rejects before it acknowledges; after
the data of a chunk has been written it is below the budget. -/
structure wdb_late_acking {σ : Type} (h : escore_hdr) (ops : bus_ops σ)
    (Idle Due : σ → Prop) (left : σ → Nat) : Prop where
  cmd_ok : ∀ s w, Idle s →
    0 ≤ (ops.high_bw_cmd s w).1 ∧ u32 (ops.high_bw_cmd s w).2.1 >>> 16 = h.ES_WRITE_DATA_BLOCK
      ∧ Idle (ops.high_bw_cmd s w).2.2
  write_ok : ∀ s b, Idle s →
    0 ≤ (ops.high_bw_write s b).1 ∧ Due (ops.high_bw_write s b).2
      ∧ left (ops.high_bw_write s b).2 < wdb_ack_budget h
  accept : ∀ s, Due s → left s = 0 → ack_accepted h ops s Idle
  reject : ∀ s, Due s → 0 < left s →
    ack_rejected h ops s (fun s1 => Due s1 ∧ left s1 = left s - 1)

/-- The command word of a chunk when `remaining` bytes are left. -/
def wdb_cmd_word (h : escore_hdr) (remaining : Nat) : Nat :=
  wdb_ack_word h ||| (wdb_size h remaining &&& 0xFFFF)

/-- A transport that accepts the command and the data of a chunk and then answers every
read by the word 0; its state counts the reads since the data was written. -/
def nack_ops : bus_ops Nat :=
  { cmd := fun s _ w => (0, w, s),
    high_bw_cmd := fun s _ => (0, 0x802f0000, s),
    high_bw_write := fun _ _ => (0, 0),
    high_bw_read := fun s _ => (0, [0, 0, 0, 0], s + 1),
    bus_to_cpu := fun w => w,
    rdb := none,
    escore_uart_wakeup := none,
    wait_for_completion_timeout := fun s => (1, s),
    pm_get_sync := fun s => (0, s),
    boottime := fun _ => 0 }

/-- A transport that acknowledges the data of a chunk on the third read: its state is the
number of reads it still answers by the word 0. -/
def late_ops : bus_ops Nat :=
  { cmd := fun s _ w => (0, w, s),
    high_bw_cmd := fun s _ => (0, 0x802f0000, s),
    high_bw_write := fun _ _ => (0, 2),
    high_bw_read := fun s _ => if s = 0 then (0, [0, 0, 0x2f, 0x80], 0) else (0, [0, 0, 0, 0], s - 1),
    bus_to_cpu := fun w => w,
    rdb := none,
    escore_uart_wakeup := none,
    wait_for_completion_timeout := fun s => (1, s),
    pm_get_sync := fun s => (0, s),
    boottime := fun _ => 0 }

/-! # Proofs -/

/-! ## Lemmas on traces -/

theorem hb_cmds_append (a b : List Event) : hb_cmds (a ++ b) = hb_cmds a ++ hb_cmds b := by
  induction a with
  | nil => rfl
  | cons x t ih => cases x <;> simp [hb_cmds, ih]

theorem hb_writes_append (a b : List Event) :
    hb_writes (a ++ b) = hb_writes a ++ hb_writes b := by
  induction a with
  | nil => rfl
  | cons x t ih => cases x <;> simp [hb_writes, ih]

theorem hb_reads_append (a b : List Event) : hb_reads (a ++ b) = hb_reads a ++ hb_reads b := by
  induction a with
  | nil => rfl
  | cons x t ih => cases x <;> simp [hb_reads, ih]

theorem bus_cmds_append (a b : List Event) : bus_cmds (a ++ b) = bus_cmds a ++ bus_cmds b := by
  induction a with
  | nil => rfl
  | cons x t ih => cases x <;> simp [bus_cmds, ih]

/-! ## Data-block write: an acknowledging transport -/

theorem neg_EIO_neg : - EIO < 0 := by decide

theorem wdb_ack_loop_first {σ : Type} (h : escore_hdr) (ops : bus_ops σ)
    (Idle Written : σ → Prop) (ha : wdb_acking h ops Idle Written)
    (hspi : h.CONFIG_SPI = false) (n : Nat) (e : escore_priv σ) (rc : Int)
    (hw : Written e.dev) :
    ∃ rc1 e1, wdb_ack_loop h ops (n + 1) e rc = (Flow.next rc1, e1) ∧ 0 ≤ rc1 ∧ Idle e1.dev
      ∧ e1.trace = e.trace ++ [Event.high_bw_read 4] := by
  obtain ⟨h1, h2, h3⟩ := ha.ack_ok hspi e.dev hw
  refine ⟨(ops.high_bw_read e.dev 4).1, e.step (.high_bw_read 4) (ops.high_bw_read e.dev 4).2.2,
    ?_, h1, h3, rfl⟩
  simp only [wdb_ack_loop]
  rw [if_neg (not_lt.mpr h1)]
  simp [h2]

theorem wdb_ack_loop_spi_first {σ : Type} (h : escore_hdr) (ops : bus_ops σ)
    (Idle Written : σ → Prop) (ha : wdb_acking h ops Idle Written)
    (hspi : h.CONFIG_SPI = true) (n : Nat) (e : escore_priv σ) (rc : Int)
    (hw : Written e.dev) :
    ∃ rc1 e1, wdb_ack_loop_spi h ops (n + 1) e rc = (Flow.next rc1, e1) ∧ 0 ≤ rc1
      ∧ Idle e1.dev
      ∧ e1.trace = e.trace ++ [Event.high_bw_read 2, Event.high_bw_read 2] := by
  obtain ⟨h1, h2, h3, h4, h5⟩ := ha.ack_spi_ok hspi e.dev hw
  refine ⟨(ops.high_bw_read (ops.high_bw_read e.dev 2).2.2 2).1,
    (e.step (.high_bw_read 2) (ops.high_bw_read e.dev 2).2.2).step (.high_bw_read 2)
      (ops.high_bw_read (ops.high_bw_read e.dev 2).2.2 2).2.2, ?_, h3, h5, ?_⟩
  · simp only [wdb_ack_loop_spi]
    rw [if_neg (not_lt.mpr h1)]
    simp only [h2, if_true]
    simp only [escore_priv.step]
    rw [if_neg (not_lt.mpr h3)]
    simp [h4]
  · simp [escore_priv.step]

theorem wdb_chunk_acked {σ : Type} (h : escore_hdr) (ops : bus_ops σ)
    (Idle Written : σ → Prop) (ha : wdb_acking h ops Idle Written)
    (hb : h.CONFIG_SPI = true → 0 < h.ES_SPI_MAX_RETRIES)
    (buf : List Nat) (e : escore_priv σ) (off remaining : Nat) (hi : Idle e.dev) :
    ∃ e1, wdb_chunk h ops buf e off remaining = (Flow.next (wdb_size h remaining), e1)
      ∧ Idle e1.dev
      ∧ e1.trace = e.trace ++ ([Event.high_bw_cmd (wdb_ack_word h ||| (wdb_size h remaining &&& 0xFFFF)),
          Event.high_bw_write ((buf.drop off).take (wdb_size h remaining))] ++ wdb_ack_reads h) := by
  obtain ⟨c1, c2, c3⟩ := ha.cmd_ok e.dev (wdb_ack_word h ||| (wdb_size h remaining &&& 0xFFFF)) hi
  set e1 := e.step (.high_bw_cmd (wdb_ack_word h ||| (wdb_size h remaining &&& 0xFFFF)))
    (ops.high_bw_cmd e.dev (wdb_ack_word h ||| (wdb_size h remaining &&& 0xFFFF))).2.2 with he1
  obtain ⟨w1, w2⟩ := ha.write_ok e1.dev ((buf.drop off).take (wdb_size h remaining)) c3
  set e2 := e1.step (.high_bw_write ((buf.drop off).take (wdb_size h remaining)))
    (ops.high_bw_write e1.dev ((buf.drop off).take (wdb_size h remaining))).2 with he2
  have key : wdb_chunk h ops buf e off remaining =
      (match (if h.CONFIG_SPI then wdb_ack_loop_spi h ops h.ES_SPI_MAX_RETRIES e2
                (ops.high_bw_write e1.dev ((buf.drop off).take (wdb_size h remaining))).1
              else wdb_ack_loop h ops (h.ES_MAX_RETRIES + 5) e2
                (ops.high_bw_write e1.dev ((buf.drop off).take (wdb_size h remaining))).1) with
        | (Flow.out rc, e) => (Flow.out rc, e)
        | (Flow.next rc, e) =>
          if rc = - EIO then (Flow.out rc, e) else (Flow.next (wdb_size h remaining), e)) := by
    have hs : (if remaining > h.ES_WDB_MAX_SIZE then h.ES_WDB_MAX_SIZE else remaining)
        = wdb_size h remaining := rfl
    have hw : u32 (h.ES_WRITE_DATA_BLOCK <<< 16) = wdb_ack_word h := rfl
    simp only [wdb_chunk, hs, hw]
    rw [if_neg (not_lt.mpr c1)]
    rw [if_neg (not_not.mpr c2)]
    rw [if_neg (not_lt.mpr w1)]
  rw [key]
  cases hspi : h.CONFIG_SPI with
  | false =>
    obtain ⟨rc1, e3, h3, h4, h5, h6⟩ :=
      wdb_ack_loop_first h ops Idle Written ha hspi (h.ES_MAX_RETRIES + 4) e2
        (ops.high_bw_write e1.dev ((buf.drop off).take (wdb_size h remaining))).1 w2
    refine ⟨e3, ?_, h5, ?_⟩
    · simp only [Bool.false_eq_true, if_false]
      rw [h3]
      have : rc1 ≠ - EIO := by
        have := neg_EIO_neg
        omega
      simp [this]
    · rw [h6]
      simp [he2, he1, escore_priv.step, wdb_ack_reads, hspi]
  | true =>
    obtain ⟨k, hk⟩ := Nat.exists_eq_succ_of_ne_zero (Nat.pos_iff_ne_zero.mp (hb hspi))
    obtain ⟨rc1, e3, h3, h4, h5, h6⟩ :=
      wdb_ack_loop_spi_first h ops Idle Written ha hspi k e2
        (ops.high_bw_write e1.dev ((buf.drop off).take (wdb_size h remaining))).1 w2
    refine ⟨e3, ?_, h5, ?_⟩
    · simp only [if_true]
      rw [hk, h3]
      have : rc1 ≠ - EIO := by
        have := neg_EIO_neg
        omega
      simp [this]
    · rw [h6]
      simp [he2, he1, escore_priv.step, wdb_ack_reads, hspi]

theorem wdb_chunk_trace_cmds (h : escore_hdr) (c : Nat) (b : List Nat) (t : List Event) :
    hb_cmds ([Event.high_bw_cmd c, Event.high_bw_write b] ++ wdb_ack_reads h ++ t)
      = c :: hb_cmds t := by
  unfold wdb_ack_reads
  split <;> simp [hb_cmds]

theorem wdb_chunk_trace_writes (h : escore_hdr) (c : Nat) (b : List Nat) (t : List Event) :
    hb_writes ([Event.high_bw_cmd c, Event.high_bw_write b] ++ wdb_ack_reads h ++ t)
      = b :: hb_writes t := by
  unfold wdb_ack_reads
  split <;> simp [hb_writes]

theorem wdb_size_pos (h : escore_hdr) (hmax : 0 < h.ES_WDB_MAX_SIZE) (r : Nat) :
    0 < wdb_size h (r + 1) ∧ wdb_size h (r + 1) ≤ h.ES_WDB_MAX_SIZE
      ∧ wdb_size h (r + 1) ≤ r + 1 := by
  unfold wdb_size
  split <;> omega

theorem wdb_ceil_step (h : escore_hdr) (hmax : 0 < h.ES_WDB_MAX_SIZE) (r : Nat) :
    (r + 1 + h.ES_WDB_MAX_SIZE - 1) / h.ES_WDB_MAX_SIZE
      = (r + 1 - wdb_size h (r + 1) + h.ES_WDB_MAX_SIZE - 1) / h.ES_WDB_MAX_SIZE + 1 := by
  have e1 : r + 1 + h.ES_WDB_MAX_SIZE - 1 = r + h.ES_WDB_MAX_SIZE := by omega
  rw [e1, Nat.add_div_right r hmax]
  congr 1
  unfold wdb_size
  split
  · congr 1
    omega
  · rw [Nat.div_eq_of_lt (by omega), Nat.div_eq_of_lt (by omega)]

theorem wdb_loop_acked {σ : Type} (h : escore_hdr) (ops : bus_ops σ)
    (Idle Written : σ → Prop) (ha : wdb_acking h ops Idle Written)
    (hb : h.CONFIG_SPI = true → 0 < h.ES_SPI_MAX_RETRIES)
    (hmax : 0 < h.ES_WDB_MAX_SIZE) (buf : List Nat) :
    ∀ (fuel : Nat) (e : escore_priv σ) (off remaining : Nat), remaining ≤ fuel → Idle e.dev →
      off + remaining ≤ buf.length →
      ∃ e1 t sizes, wdb_loop h ops buf fuel e off remaining = some (Flow.next (), e1)
        ∧ Idle e1.dev ∧ e1.trace = e.trace ++ t
        ∧ hb_cmds t = sizes.map (fun sz => wdb_ack_word h ||| (sz &&& 0xFFFF))
        ∧ (hb_writes t).map List.length = sizes
        ∧ (hb_writes t).flatten = (buf.drop off).take remaining
        ∧ sizes.length = (remaining + h.ES_WDB_MAX_SIZE - 1) / h.ES_WDB_MAX_SIZE
        ∧ (∀ sz ∈ sizes, 0 < sz ∧ sz ≤ h.ES_WDB_MAX_SIZE)
        ∧ sizes.sum = remaining := by
  intro fuel
  induction fuel with
  | zero =>
    intro e off remaining hf hi _
    have : remaining = 0 := by omega
    subst this
    refine ⟨e, [], [], by simp [wdb_loop], hi, by simp, by simp [hb_cmds], by simp [hb_writes],
      by simp [hb_writes], ?_, by simp, by simp⟩
    simp only [List.length_nil, Nat.zero_add]
    exact (Nat.div_eq_of_lt (by omega)).symm
  | succ f ih =>
    intro e off remaining hf hi hlen
    cases remaining with
    | zero =>
      refine ⟨e, [], [], by simp [wdb_loop], hi, by simp, by simp [hb_cmds], by simp [hb_writes],
        by simp [hb_writes], ?_, by simp, by simp⟩
      simp only [List.length_nil, Nat.zero_add]
      exact (Nat.div_eq_of_lt (by omega)).symm
    | succ r =>
      obtain ⟨e1, hc, hi1, ht1⟩ :=
        wdb_chunk_acked h ops Idle Written ha hb buf e off (r + 1) hi
      obtain ⟨hp1, hp2, hp3⟩ := wdb_size_pos h hmax r
      obtain ⟨e2, t, sizes, hl, hi2, ht2, hcm, hwl, hwj, hsl, hsb, hss⟩ :=
        ih e1 (off + wdb_size h (r + 1)) (r + 1 - wdb_size h (r + 1)) (by omega) hi1 (by omega)
      refine ⟨e2, [Event.high_bw_cmd (wdb_ack_word h ||| (wdb_size h (r + 1) &&& 0xFFFF)),
          Event.high_bw_write ((buf.drop off).take (wdb_size h (r + 1)))] ++ wdb_ack_reads h ++ t,
        wdb_size h (r + 1) :: sizes, ?_, hi2, ?_, ?_, ?_, ?_, ?_, ?_, ?_⟩
      · simp only [wdb_loop]
        rw [hc]
        exact hl
      · rw [ht2, ht1]
        simp
      · rw [wdb_chunk_trace_cmds, hcm]
        rfl
      · rw [wdb_chunk_trace_writes, List.map_cons, hwl, List.length_take, List.length_drop]
        congr 1
        omega
      · rw [wdb_chunk_trace_writes, List.flatten_cons, hwj]
        have hsplit : r + 1 = wdb_size h (r + 1) + (r + 1 - wdb_size h (r + 1)) := by omega
        conv_rhs => rw [hsplit, List.take_add, List.drop_drop]
      · simp only [List.length_cons, hsl]
        exact (wdb_ceil_step h hmax r).symm
      · intro sz hsz
        rcases List.mem_cons.mp hsz with rfl | hm
        · exact ⟨hp1, hp2⟩
        · exact hsb sz hm
      · simp only [List.sum_cons, hss]
        omega

theorem echo_ops_acking :
    wdb_acking sample_hdr echo_ops (fun _ => True) (fun _ => True) := by
  refine ⟨?_, ?_, ?_, ?_⟩
  · intro s w _
    refine ⟨le_refl _, ?_, trivial⟩
    show u32 0x802f0000 >>> 16 = 0x802f
    decide
  · intro s b _
    exact ⟨le_refl _, trivial⟩
  · intro _ s _
    refine ⟨le_refl _, ?_, trivial⟩
    simp [echo_ops, bytes_stored, bytes_u32, wdb_ack_word, sample_hdr, u32, List.range,
      List.range.loop]
  · intro hspi
    exact absurd hspi (by decide)

theorem wdb_cmd_low (h : escore_hdr) (sz : Nat) (hsz : sz ≤ 0xFFFF) :
    (wdb_ack_word h ||| (sz &&& 0xFFFF)) &&& 0xFFFF = sz := by
  have e16 : (0xFFFF : Nat) = 2 ^ 16 - 1 := by norm_num
  rw [e16, Nat.and_pow_two_sub_one_eq_mod, Nat.and_pow_two_sub_one_eq_mod]
  have h1 : sz % 2 ^ 16 = sz := Nat.mod_eq_of_lt (by omega)
  rw [h1]
  apply Nat.eq_of_testBit_eq
  intro i
  rw [Nat.testBit_mod_two_pow, Nat.testBit_or]
  unfold wdb_ack_word u32
  rw [Nat.testBit_mod_two_pow, Nat.testBit_shiftLeft]
  by_cases hi : i < 16
  · have : ¬ (i ≥ 16) := by omega
    simp [hi, this]
  · have : sz.testBit i = false := by
      apply Nat.testBit_eq_false_of_lt
      calc sz < 2 ^ 16 := by omega
        _ ≤ 2 ^ i := Nat.pow_le_pow_right (by norm_num) (by omega)
    simp [hi, this]

theorem wdb_write_acked {σ : Type} (h : escore_hdr) (ops : bus_ops σ)
    (Idle Written : σ → Prop) (ha : wdb_acking h ops Idle Written)
    (hb : h.CONFIG_SPI = true → 0 < h.ES_SPI_MAX_RETRIES)
    (hmax : 0 < h.ES_WDB_MAX_SIZE) (buf : List Nat) (fuel : Nat) (e : escore_priv σ)
    (hf : buf.length ≤ fuel) (hi : Idle e.dev) :
    ∃ e1 t sizes, escore_datablock_write h ops fuel e buf buf.length
          = some (to_int buf.length, e1)
        ∧ e1.trace = e.trace ++ t
        ∧ hb_cmds t = sizes.map (fun sz => wdb_ack_word h ||| (sz &&& 0xFFFF))
        ∧ (hb_writes t).map List.length = sizes
        ∧ (hb_writes t).flatten = buf
        ∧ sizes.length = (buf.length + h.ES_WDB_MAX_SIZE - 1) / h.ES_WDB_MAX_SIZE
        ∧ (∀ sz ∈ sizes, 0 < sz ∧ sz ≤ h.ES_WDB_MAX_SIZE)
        ∧ sizes.sum = buf.length := by
  obtain ⟨e1, t, sizes, hl, -, ht, hc, hw, hj, hn, hs, hsum⟩ :=
    wdb_loop_acked h ops Idle Written ha hb hmax buf fuel e 0 buf.length hf hi (by omega)
  refine ⟨e1, t, sizes, ?_, ht, hc, hw, ?_, hn, hs, hsum⟩
  · simp only [escore_datablock_write, hl]
  · rw [hj]
    simp

/-- C1: for a buffer of any length `len`, so also one longer than `ES_WDB_MAX_SIZE`, and a
transport that acknowledges every chunk, `escore_datablock_write` issues exactly `ceil(len / ES_WDB_MAX_SIZE)` command words
`ES_WRITE_DATA_BLOCK << 16 | size`; the low 16 bits of each are the length of the chunk
written after it, at most `ES_WDB_MAX_SIZE`, and these sizes sum to `len`. The constant
`ES_WDB_MAX_SIZE` is positive and fits the 16 bit size field. -/
theorem escore_datablock_write_chunk_commands {σ : Type} (h : escore_hdr) (ops : bus_ops σ)
    (Idle Written : σ → Prop) (ha : wdb_acking h ops Idle Written)
    (hb : h.CONFIG_SPI = true → 0 < h.ES_SPI_MAX_RETRIES)
    (hmax : 0 < h.ES_WDB_MAX_SIZE) (hfit : h.ES_WDB_MAX_SIZE ≤ 0xFFFF)
    (buf : List Nat) (fuel : Nat) (e : escore_priv σ)
    (hf : buf.length ≤ fuel) (hi : Idle e.dev) :
    ∃ rc e1 t, escore_datablock_write h ops fuel e buf buf.length = some (rc, e1)
      ∧ e1.trace = e.trace ++ t
      ∧ (hb_cmds t).length = (buf.length + h.ES_WDB_MAX_SIZE - 1) / h.ES_WDB_MAX_SIZE
      ∧ (∀ w ∈ hb_cmds t, w = wdb_ack_word h ||| (w &&& 0xFFFF)
            ∧ w &&& 0xFFFF ≤ h.ES_WDB_MAX_SIZE)
      ∧ (hb_cmds t).map (fun w => w &&& 0xFFFF) = (hb_writes t).map List.length
      ∧ ((hb_cmds t).map (fun w => w &&& 0xFFFF)).sum = buf.length := by
  obtain ⟨e1, t, sizes, hr, ht, hc, hw, -, hn, hs, hsum⟩ :=
    wdb_write_acked h ops Idle Written ha hb hmax buf fuel e hf hi
  have hlow : (hb_cmds t).map (fun w => w &&& 0xFFFF) = sizes := by
    rw [hc, List.map_map]
    conv_rhs => rw [← List.map_id sizes]
    apply List.map_congr_left
    intro sz hsz
    exact wdb_cmd_low h sz (le_trans (hs sz hsz).2 hfit)
  refine ⟨to_int buf.length, e1, t, hr, ht, ?_, ?_, ?_, ?_⟩
  · rw [hc, List.length_map, hn]
  · intro w hwm
    rw [hc] at hwm
    obtain ⟨sz, hsz, rfl⟩ := List.mem_map.mp hwm
    have hl := wdb_cmd_low h sz (le_trans (hs sz hsz).2 hfit)
    rw [hl]
    have e16 : (0xFFFF : Nat) = 2 ^ 16 - 1 := by norm_num
    have hsz2 : sz &&& 0xFFFF = sz := by
      rw [e16, Nat.and_pow_two_sub_one_eq_mod]
      exact Nat.mod_eq_of_lt (by have := (hs sz hsz).2; omega)
    rw [hsz2]
    exact ⟨rfl, (hs sz hsz).2⟩
  · rw [hlow, hw]
  · rw [hlow, hsum]

/-- Witness of C1: the sample transport, chunks of at most 4 bytes, a buffer of 9 bytes. -/
theorem escore_datablock_write_chunk_commands_witness :
    ∃ rc e1 t, escore_datablock_write sample_hdr echo_ops 9 (sample_priv ())
        [1, 2, 3, 4, 5, 6, 7, 8, 9] 9 = some (rc, e1)
      ∧ e1.trace = (sample_priv ()).trace ++ t
      ∧ (hb_cmds t).length = (9 + 4 - 1) / 4
      ∧ (∀ w ∈ hb_cmds t, w = wdb_ack_word sample_hdr ||| (w &&& 0xFFFF) ∧ w &&& 0xFFFF ≤ 4)
      ∧ (hb_cmds t).map (fun w => w &&& 0xFFFF) = (hb_writes t).map List.length
      ∧ ((hb_cmds t).map (fun w => w &&& 0xFFFF)).sum = 9 :=
  escore_datablock_write_chunk_commands sample_hdr echo_ops (fun _ => True) (fun _ => True)
    echo_ops_acking (by decide) (by decide) (by decide) [1, 2, 3, 4, 5, 6, 7, 8, 9] 9
    (sample_priv ()) (by decide) trivial

theorem to_int_of_lt (n : Nat) (hn : n < 2 ^ 31) : to_int n = (n : Int) := by
  unfold to_int
  have : n % 2 ^ 32 = n := Nat.mod_eq_of_lt (by omega)
  rw [this, if_pos hn]

/-- C2 fails as stated: with the sample transport, which acknowledges every chunk, and a
buffer of `2 ^ 31` bytes the value returned is not the length, since the result type `int`
cannot hold it. -/
theorem escore_datablock_write_returns_len_counterexample :
    ¬ ∃ e1, escore_datablock_write sample_hdr echo_ops (2 ^ 31) (sample_priv ())
        (List.replicate (2 ^ 31) 0) (2 ^ 31) = some ((2 ^ 31 : Int), e1) := by
  rintro ⟨e1, he1⟩
  obtain ⟨e2, t, sizes, hr, -⟩ :=
    wdb_write_acked sample_hdr echo_ops (fun _ => True) (fun _ => True) echo_ops_acking
      (by decide) (by decide) (List.replicate (2 ^ 31) 0) (2 ^ 31) (sample_priv ())
      (by rw [List.length_replicate]) trivial
  rw [List.length_replicate] at hr
  rw [hr] at he1
  have h1 := congrArg Prod.fst (Option.some.inj he1)
  revert h1
  simp only [to_int]
  norm_num

/-- C2, amended: a write of length 0 returns 0 and makes no call; for a buffer of fewer
than `2 ^ 31` bytes and a transport that acknowledges every chunk,
`escore_datablock_write` returns the length, and the byte ranges given to `high_bw_write`,
concatenated in the order of the calls, are the buffer. -/
theorem escore_datablock_write_returns_len {σ : Type} (h : escore_hdr) (ops : bus_ops σ) :
    (∀ (buf : List Nat) (fuel : Nat) (e : escore_priv σ),
        escore_datablock_write h ops fuel e buf 0 = some (0, e))
    ∧ (∀ (Idle Written : σ → Prop), wdb_acking h ops Idle Written →
        (h.CONFIG_SPI = true → 0 < h.ES_SPI_MAX_RETRIES) → 0 < h.ES_WDB_MAX_SIZE →
        ∀ (buf : List Nat) (fuel : Nat) (e : escore_priv σ),
          buf.length < 2 ^ 31 → buf.length ≤ fuel → Idle e.dev →
          ∃ e1 t, escore_datablock_write h ops fuel e buf buf.length
              = some ((buf.length : Int), e1)
            ∧ e1.trace = e.trace ++ t
            ∧ (hb_writes t).flatten = buf) := by
  constructor
  · intro buf fuel e
    cases fuel <;> simp [escore_datablock_write, wdb_loop, to_int]
  · intro Idle Written ha hb hmax buf fuel e hlt hf hi
    obtain ⟨e1, t, sizes, hr, ht, -, -, hj, -⟩ :=
      wdb_write_acked h ops Idle Written ha hb hmax buf fuel e hf hi
    rw [to_int_of_lt _ hlt] at hr
    exact ⟨e1, t, hr, ht, hj⟩

/-- Witness of C2: the sample transport and a buffer of 9 bytes. -/
theorem escore_datablock_write_returns_len_witness :
    ∃ e1 t, escore_datablock_write sample_hdr echo_ops 9 (sample_priv ())
        [1, 2, 3, 4, 5, 6, 7, 8, 9] ([1, 2, 3, 4, 5, 6, 7, 8, 9] : List Nat).length
          = some (((([1, 2, 3, 4, 5, 6, 7, 8, 9] : List Nat).length : Nat) : Int), e1)
      ∧ e1.trace = (sample_priv ()).trace ++ t
      ∧ (hb_writes t).flatten = [1, 2, 3, 4, 5, 6, 7, 8, 9] :=
  (escore_datablock_write_returns_len sample_hdr echo_ops).2 (fun _ => True) (fun _ => True)
    echo_ops_acking (by decide) (by decide) [1, 2, 3, 4, 5, 6, 7, 8, 9] 9 (sample_priv ())
    (by decide) (by decide) trivial

theorem bytes_stored_length (n : Nat) (d : List Nat) : (bytes_stored n d).length = n := by
  simp [bytes_stored]

theorem rdb_loop_ok {σ : Type} (ops : bus_ops σ)
    (hr : ∀ s n, 0 ≤ (ops.high_bw_read s n).1) :
    ∀ (fuel : Nat) (e : escore_priv σ) (rdcnt len : Nat) (buf : List Nat),
      len ≤ rdcnt + fuel →
      ∃ buf1 e1, rdb_loop ops fuel e rdcnt len buf = some (Flow.next (), buf1, e1)
        ∧ buf1.length = buf.length + 4 * ((len - rdcnt + 3) / 4)
        ∧ e1.trace = e.trace ++ List.replicate ((len - rdcnt + 3) / 4) (Event.high_bw_read 4) := by
  intro fuel
  induction fuel with
  | zero =>
    intro e rdcnt len buf hf
    refine ⟨buf, e, ?_, ?_, ?_⟩
    · simp only [rdb_loop]
      rw [if_neg (by omega)]
    · have : (len - rdcnt + 3) / 4 = 0 := by omega
      omega
    · have : (len - rdcnt + 3) / 4 = 0 := by omega
      rw [this]
      simp
  | succ f ih =>
    intro e rdcnt len buf hf
    by_cases hlt : rdcnt < len
    · obtain ⟨buf1, e1, h1, h2, h3⟩ :=
        ih (e.step (.high_bw_read 4) (ops.high_bw_read e.dev 4).2.2) (rdcnt + 4) len
          (buf ++ bytes_stored 4 (ops.high_bw_read e.dev 4).2.1) (by omega)
      refine ⟨buf1, e1, ?_, ?_, ?_⟩
      · simp only [rdb_loop]
        rw [if_pos hlt, if_neg (not_lt.mpr (hr e.dev 4))]
        exact h1
      · rw [h2, List.length_append, bytes_stored_length]
        omega
      · rw [h3]
        have : (len - rdcnt + 3) / 4 = (len - (rdcnt + 4) + 3) / 4 + 1 := by omega
        rw [this, List.replicate_succ]
        simp [escore_priv.step]
    · refine ⟨buf, e, ?_, ?_, ?_⟩
      · simp only [rdb_loop]
        rw [if_neg hlt]
      · have : (len - rdcnt + 3) / 4 = 0 := by omega
        omega
      · have : (len - rdcnt + 3) / 4 = 0 := by omega
        rw [this]
        simp


/-- With the callback `bus.ops.rdb` set, `escore_datablock_read` calls it and returns its
result; it makes no other call. -/
theorem escore_datablock_read_rdb {σ : Type} (h : escore_hdr) (ops : bus_ops σ)
    (e : escore_priv σ) (len : Nat) (id : Int) (rdb : σ → Nat → Int → Int × List Nat × σ)
    (hrdb : ops.rdb = some rdb) :
    ∃ e1, escore_datablock_read h ops e len id
        = some ((rdb e.dev len id).1, (rdb e.dev len id).2.1, e1)
      ∧ e1.trace = e.trace ++ [Event.rdb len id] := by
  simp only [escore_datablock_read, hrdb]
  exact ⟨_, rfl, rfl⟩

/-- C4 fails as stated: on a transport with the callback `rdb` whose device reports the
valid size 8 and whose reads all succeed, a request of 6 bytes returns the result of the
callback, 0, not 6; the only call is that of the callback, so no read of
`(8 - 6) mod 4 = 2` bytes is made. -/
theorem escore_datablock_read_short_counterexample :
    rdb_hook_ops.high_bw_cmd () (rdb_cmd_word sample_hdr 0) = (0, 0x802e0000 ||| 8, ())
      ∧ (∀ n, 0 ≤ (rdb_hook_ops.high_bw_read () n).1)
      ∧ (8 - 6) % 4 = 2
      ∧ (escore_datablock_read sample_hdr rdb_hook_ops (sample_priv ()) 6 0).map
          (fun r => (r.1, r.2.1.length, r.2.2.trace, hb_reads r.2.2.trace))
        = some (0, 6, [Event.rdb 6 0], []) := by
  refine ⟨by decide, fun _ => le_refl _, by decide, by decide⟩

/-- C4, amended: on a transport without the callback `rdb`, when the requested length is
below the valid size the device reports and all reads succeed, `escore_datablock_read`
returns the requested length; after the command it makes its reads of 4 bytes and then one
more read of `(size - len) mod 4` bytes when that is not zero, and no further read when it
is zero. -/
theorem escore_datablock_read_short {σ : Type} (h : escore_hdr) (ops : bus_ops σ)
    (e : escore_priv σ) (len : Nat) (id : Int) (rc : Int) (resp : Nat) (dev1 : σ)
    (hrdb : ops.rdb = none)
    (hc : ops.high_bw_cmd e.dev (rdb_cmd_word h id) = (rc, resp, dev1))
    (hrc : 0 ≤ rc) (hop : u32 resp >>> 16 = h.ES_READ_DATA_BLOCK)
    (hnz : u32 resp &&& 0xFFFF ≠ 0) (hm4 : (u32 resp &&& 0xFFFF) % 4 = 0)
    (hlt : len < u32 resp &&& 0xFFFF)
    (hr : ∀ s n, 0 ≤ (ops.high_bw_read s n).1) :
    ∃ buf e1, escore_datablock_read h ops e len id = some ((len : Int), buf, e1)
      ∧ e1.trace = e.trace ++ [Event.high_bw_cmd (rdb_cmd_word h id)]
          ++ List.replicate ((len + 3) / 4) (Event.high_bw_read 4)
          ++ (if ((u32 resp &&& 0xFFFF) - len) % 4 ≠ 0
              then [Event.high_bw_read (((u32 resp &&& 0xFFFF) - len) % 4)] else []) := by
  have hcw : u32 (h.ES_READ_DATA_BLOCK <<< 16) ||| (id % 0x10000).toNat = rdb_cmd_word h id := rfl
  have hsz : u32 resp &&& 0xFFFF < 2 ^ 16 := by
    have e16 : (0xFFFF : Nat) = 2 ^ 16 - 1 := by norm_num
    rw [e16, Nat.and_pow_two_sub_one_eq_mod]
    exact Nat.mod_lt _ (by norm_num)
  have hti : to_int len = (len : Int) := to_int_of_lt len (by omega)
  obtain ⟨buf1, e1, h1, -, h3⟩ :=
    rdb_loop_ok ops hr len
      (({ e with rdb_read_count := 0 } : escore_priv σ).step
        (.high_bw_cmd (rdb_cmd_word h id)) dev1) 0 len [] (by omega)
  have hne : len ≠ u32 resp &&& 0xFFFF := by omega
  simp only [escore_datablock_read, hrdb, hcw, hc]
  rw [if_neg (not_lt.mpr hrc), if_neg (not_not.mpr hop), if_neg (by tauto)]
  simp only [hne, hlt, ne_eq, not_false_eq_true, and_self, not_true_eq_false, and_false,
    if_true, if_false]
  rw [h1]
  simp only [Nat.sub_zero] at h3
  by_cases hfl : ((u32 resp &&& 0xFFFF) - len) % 4 = 0
  · refine ⟨buf1, { e1 with rdb_read_count := u32 resp &&& 0xFFFF }, ?_, ?_⟩
    · simp only [hfl, not_true_eq_false, if_false, hti]
    · simp [hfl, h3, escore_priv.step]
  · refine ⟨buf1, ({ e1 with rdb_read_count := u32 resp &&& 0xFFFF } : escore_priv σ).step
        (.high_bw_read (((u32 resp &&& 0xFFFF) - len) % 4))
        (ops.high_bw_read e1.dev (((u32 resp &&& 0xFFFF) - len) % 4)).2.2, ?_, ?_⟩
    · simp only [hfl, not_false_eq_true, if_true, hti]
      rw [if_neg (not_lt.mpr (hr _ _))]
    · simp [hfl, h3, escore_priv.step]


/-- Witness of C4: the device reports 8 bytes, 5 are requested. -/
theorem escore_datablock_read_short_witness :
    ∃ buf e1, escore_datablock_read sample_hdr (rdb_sim_ops 8) (sample_priv ()) 5 0
        = some (((5 : Nat) : Int), buf, e1)
      ∧ e1.trace = (sample_priv ()).trace ++ [Event.high_bw_cmd (rdb_cmd_word sample_hdr 0)]
          ++ List.replicate ((5 + 3) / 4) (Event.high_bw_read 4)
          ++ (if ((u32 (0x802e0000 ||| 8) &&& 0xFFFF) - 5) % 4 ≠ 0
              then [Event.high_bw_read (((u32 (0x802e0000 ||| 8) &&& 0xFFFF) - 5) % 4)]
              else []) :=
  escore_datablock_read_short sample_hdr (rdb_sim_ops 8) (sample_priv ()) 5 0 0
    (0x802e0000 ||| 8) () rfl rfl (by decide) (by decide) (by decide) (by decide) (by decide)
    (fun _ _ => le_refl _)

/-- C3, the code at a failing input: the device reports 8 bytes and 5 are requested; the
value returned is 5 while 8 bytes have been stored at the caller's buffer by two reads of
4 bytes (a read of 3 more bytes follows). -/
theorem escore_datablock_read_overrun :
    (escore_datablock_read sample_hdr (rdb_sim_ops 8) (sample_priv ()) 5 0).map
        (fun r => (r.1, r.2.1.length, hb_reads r.2.2.trace))
      = some (5, 8, [4, 4, 3]) := by
  decide

theorem fls_eq_clog : ∀ (bits x : Nat), x < 2 ^ bits → fls bits x = Nat.clog 2 (x + 1) := by
  intro bits
  induction bits with
  | zero =>
    intro x hx
    have : x = 0 := by simpa using hx
    subst this
    simp [fls]
  | succ b ih =>
    intro x hx
    by_cases h0 : x = 0
    · subst h0
      simp [fls]
    · have hlt : x / 2 < 2 ^ b := by
        rw [Nat.div_lt_iff_lt_mul (by norm_num)]
        rw [pow_succ] at hx
        exact hx
      simp only [fls, if_neg h0]
      rw [ih (x / 2) hlt]
      conv_rhs => rw [Nat.clog_of_two_le (by norm_num) (by omega)]
      congr 2
      omega

theorem fls_le (bits x : Nat) : fls bits x ≤ bits := by
  induction bits generalizing x with
  | zero => simp [fls]
  | succ b ih =>
    simp only [fls]
    split
    · omega
    · have := ih (x / 2)
      omega

theorem lt_two_pow_fls : ∀ (bits x : Nat), x < 2 ^ bits → x < 2 ^ fls bits x := by
  intro bits
  induction bits with
  | zero =>
    intro x hx
    simpa [fls] using hx
  | succ b ih =>
    intro x hx
    by_cases h0 : x = 0
    · subst h0
      simp
    · have hlt : x / 2 < 2 ^ b := by
        rw [Nat.div_lt_iff_lt_mul (by norm_num)]
        rw [pow_succ] at hx
        exact hx
      simp only [fls, if_neg h0]
      have := ih (x / 2) hlt
      rw [pow_succ]
      omega

/-- The mask computed by the code is `2 ^ order - 1`. -/
theorem val_mask_eq (k : Nat) (hk : k ≤ 32) :
    u32 (u32 (1 <<< k) + (2 ^ 32 - 1)) = 2 ^ k - 1 := by
  unfold u32
  rw [Nat.shiftLeft_eq, one_mul]
  rcases Nat.lt_or_eq_of_le hk with hlt | rfl
  · have h1 : 2 ^ k < 2 ^ 32 := Nat.pow_lt_pow_right (by norm_num) hlt
    have h2 : 0 < 2 ^ k := Nat.two_pow_pos k
    rw [Nat.mod_eq_of_lt h1]
    omega
  · norm_num

theorem bytes_u32_append (w : Nat) (rest : List Nat) :
    bytes_u32 (u32_bytes w ++ rest) = w % 2 ^ 32 := by
  simp only [bytes_u32, u32_bytes, byte_of, List.cons_append, List.nil_append, List.getD_cons_zero,
    List.getD_cons_succ]
  norm_num
  omega


theorem memcpy_tpl_8 (t : Nat × Nat) :
    memcpy (api_word_bytes (0, 0)) (api_word_bytes t) 8 = api_word_bytes t := by
  simp [memcpy, api_word_bytes, u32_bytes]

theorem memcpy_tpl_4 (t : Nat × Nat) :
    memcpy (api_word_bytes (0, 0)) (api_word_bytes t) 4 = api_word_bytes (t.1, 0) := by
  simp [memcpy, api_word_bytes, u32_bytes]

theorem memcpy_out_8 (msg : List Nat) (t : Nat × Nat) :
    memcpy msg (api_word_bytes t) 8 = api_word_bytes t ++ msg.drop 8 := by
  simp [memcpy, api_word_bytes, u32_bytes]

theorem memcpy_out_4 (msg : List Nat) (t : Nat × Nat) :
    memcpy msg (api_word_bytes t) 4 = u32_bytes t.1 ++ msg.drop 4 := by
  simp [memcpy, api_word_bytes, u32_bytes]

theorem api_word_at_zero (x : Nat) (r : List Nat) :
    api_word_at (u32_bytes x ++ r) 0 = x % 2 ^ 32 := by
  simp only [api_word_at, Nat.mul_zero, List.drop_zero]
  exact bytes_u32_append x r

theorem api_word_at_one (x y : Nat) (r : List Nat) :
    api_word_at (u32_bytes x ++ (u32_bytes y ++ r)) 1 = y % 2 ^ 32 := by
  have hd : (u32_bytes x ++ (u32_bytes y ++ r)).drop 4 = u32_bytes y ++ r := by
    simp [u32_bytes]
  simp only [api_word_at, Nat.mul_one, hd]
  exact bytes_u32_append y r

theorem api_word_at_bytes_zero (t : Nat × Nat) :
    api_word_at (api_word_bytes t) 0 = t.1 % 2 ^ 32 :=
  api_word_at_zero t.1 (u32_bytes t.2)

theorem api_word_at_bytes_one (t : Nat × Nat) :
    api_word_at (api_word_bytes t) 1 = t.2 % 2 ^ 32 := by
  have := api_word_at_one t.1 t.2 []
  simpa [api_word_bytes] using this

/-- The write message of a register whose write length is 4. -/
theorem prepare_write_4 {σ : Type} (e : escore_priv σ) (reg value : Nat) (msg : List Nat)
    (len : Nat) (a : escore_api_access) (hreg : reg ≤ e.api_addr_max)
    (ha : e.api_access[reg]? = some a) (hl : a.write_msg_len = 4) :
    escore_prepare_msg e reg value msg len .ES_MSG_WRITE
      = some ((0 : Int), u32_bytes (a.write_msg.1 % 2 ^ 32 |||
          u32 ((u32 (u32 (1 <<< get_bitmask_order a.val_max) + (2 ^ 32 - 1)) &&& value)
            <<< a.val_shift)) ++ msg.drop 4, 4) := by
  simp only [escore_prepare_msg, if_neg (not_lt.mpr hreg), ha, hl, memcpy_tpl_4,
    api_word_at_bytes_zero, api_word_at_bytes_one]
  rw [if_pos trivial, if_neg (by decide), memcpy_out_4]

/-- The write message of a register whose write length is 8. -/
theorem prepare_write_8 {σ : Type} (e : escore_priv σ) (reg value : Nat) (msg : List Nat)
    (len : Nat) (a : escore_api_access) (hreg : reg ≤ e.api_addr_max)
    (ha : e.api_access[reg]? = some a) (hl : a.write_msg_len = 8) :
    escore_prepare_msg e reg value msg len .ES_MSG_WRITE
      = some ((0 : Int), api_word_bytes (a.write_msg.1 % 2 ^ 32, a.write_msg.2 % 2 ^ 32 |||
          u32 ((u32 (u32 (1 <<< get_bitmask_order a.val_max) + (2 ^ 32 - 1)) &&& value)
            <<< a.val_shift)) ++ msg.drop 8, 8) := by
  simp only [escore_prepare_msg, if_neg (not_lt.mpr hreg), ha, hl, memcpy_tpl_8,
    api_word_at_bytes_zero, api_word_at_bytes_one]
  rw [if_pos trivial, memcpy_out_8]

theorem spec_mask_eq (v : Nat) (hv : v < 2 ^ 32) :
    spec_mask v = 2 ^ get_bitmask_order v - 1 := by
  unfold spec_mask get_bitmask_order
  rw [← fls_eq_clog 32 v hv]
  have hk := fls_le 32 v
  have : 2 ^ fls 32 v ≤ 2 ^ 32 := Nat.pow_le_pow_right (by norm_num) hk
  have h2 : 0 < 2 ^ fls 32 v := Nat.two_pow_pos _
  exact Nat.mod_eq_of_lt (by omega)

theorem code_mask_eq_spec (v : Nat) (hv : v < 2 ^ 32) :
    u32 (u32 (1 <<< get_bitmask_order v) + (2 ^ 32 - 1)) = spec_mask v := by
  rw [spec_mask_eq v hv]
  exact val_mask_eq _ (fls_le 32 v)

theorem shiftRight_or (a b s : Nat) : (a ||| b) >>> s = a >>> s ||| b >>> s := by
  apply Nat.eq_of_testBit_eq
  intro i
  simp [Nat.testBit_shiftRight, Nat.testBit_or]

theorem field_roundtrip (t value s k : Nat)
    (hclear : (t >>> s) &&& (2 ^ k - 1) = 0) (hv : value < 2 ^ k)
    (hfit : value <<< s < 2 ^ 32) :
    ((t ||| u32 (((2 ^ k - 1) &&& value) <<< s)) >>> s) &&& (2 ^ k - 1) = value := by
  have h1 : (2 ^ k - 1) &&& value = value := by
    rw [Nat.and_comm, Nat.and_pow_two_sub_one_eq_mod]
    exact Nat.mod_eq_of_lt hv
  have h2 : u32 (value <<< s) = value <<< s := Nat.mod_eq_of_lt hfit
  rw [h1, h2, shiftRight_or, Nat.shiftLeft_shiftRight, Nat.and_distrib_right, hclear,
    Nat.zero_or, Nat.and_pow_two_sub_one_eq_mod]
  exact Nat.mod_eq_of_lt hv


theorem lt_length_of_getElem? {α : Type} (l : List α) (i : Nat) (a : α)
    (h : l[i]? = some a) : i < l.length := by
  by_contra hc
  rw [List.getElem?_eq_none (by omega)] at h
  cases h

/-- C8 fails as stated: the register `overlap_entry` is in the table and 0x2A is at most
its `value_max`, yet the write template has bit 0 set inside the value field and the
message decodes to 0x2B. -/
theorem escore_prepare_msg_roundtrip_counterexample :
    ∃ msg len, (codec_priv ()).api_access[0]? = some overlap_entry
      ∧ 0x2A ≤ overlap_entry.val_max
      ∧ escore_prepare_msg (codec_priv ()) 0 0x2A (api_word_bytes (0, 0)) 0 .ES_MSG_WRITE
          = some (0, msg, len)
      ∧ decode_value overlap_entry msg len = 0x2B := by
  refine ⟨[43, 0, 49, 144, 0, 0, 0, 0], 4, rfl, by decide, by decide, ?_⟩
  unfold decode_value
  rw [spec_mask_eq _ (by decide)]
  decide

/-- C8, amended: for a register of the table whose write length is 4 or 8, for which C
defines the two shifts of the source (`value_max < 2 ^ 30`, so that the `int` 1 is shifted
by at most 30, and `value_shift < 32`), whose field `value_max << value_shift` lies inside
the 32 bit word and whose write template has no bit set inside the value field of the value
lane, and for every value up to `value_max`, decoding the write message of
`escore_prepare_msg` gives the value back. -/
theorem escore_prepare_msg_roundtrip {σ : Type} (e : escore_priv σ) (reg value : Nat)
    (msg0 : List Nat) (len0 : Nat) (a : escore_api_access)
    (hsize : e.api_addr_max = e.api_access.length) (ha : e.api_access[reg]? = some a)
    (hlen : a.write_msg_len = 4 ∨ a.write_msg_len = 8)
    (hdef : a.val_max < 2 ^ 30 ∧ a.val_shift < 32)
    (hfit : a.val_max <<< a.val_shift < 2 ^ 32)
    (hclear : (u32 (write_lane a) >>> a.val_shift) &&& spec_mask a.val_max = 0)
    (hv : value ≤ a.val_max) :
    ∃ msg, escore_prepare_msg e reg value msg0 len0 .ES_MSG_WRITE
        = some (0, msg, a.write_msg_len)
      ∧ decode_value a msg a.write_msg_len = value := by
  have hreg : reg ≤ e.api_addr_max := by
    have := lt_length_of_getElem? _ _ _ ha
    omega
  have hvm : a.val_max < 2 ^ 32 := lt_trans hdef.1 (by norm_num)
  have hvk : value < 2 ^ get_bitmask_order a.val_max :=
    lt_of_le_of_lt hv (lt_two_pow_fls 32 a.val_max hvm)
  have hvfit : value <<< a.val_shift < 2 ^ 32 := by
    rw [Nat.shiftLeft_eq] at hfit ⊢
    exact lt_of_le_of_lt (Nat.mul_le_mul_right _ hv) hfit
  have hV : u32 (((2 ^ get_bitmask_order a.val_max - 1) &&& value) <<< a.val_shift) < 2 ^ 32 :=
    Nat.mod_lt _ (by norm_num)
  rw [spec_mask_eq _ hvm] at hclear
  rcases hlen with hl | hl
  · have hlane : write_lane a = a.write_msg.1 := by simp [write_lane, hl]
    rw [hlane] at hclear
    refine ⟨_, by rw [prepare_write_4 e reg value msg0 len0 a hreg ha hl, hl], ?_⟩
    simp only [decode_value, hl, if_true, api_word_at_zero]
    rw [code_mask_eq_spec _ hvm, spec_mask_eq _ hvm,
      Nat.mod_eq_of_lt (Nat.or_lt_two_pow (Nat.mod_lt _ (by norm_num)) hV)]
    exact field_roundtrip _ value _ _ hclear hvk hvfit
  · have hlane : write_lane a = a.write_msg.2 := by simp [write_lane, hl]
    rw [hlane] at hclear
    refine ⟨_, by rw [prepare_write_8 e reg value msg0 len0 a hreg ha hl, hl], ?_⟩
    have h84 : ¬ (8 = 4) := by decide
    simp only [decode_value, hl, h84, if_false, api_word_bytes, List.append_assoc,
      api_word_at_one]
    rw [code_mask_eq_spec _ hvm, spec_mask_eq _ hvm,
      Nat.mod_eq_of_lt (Nat.or_lt_two_pow (Nat.mod_lt _ (by norm_num)) hV)]
    exact field_roundtrip _ value _ _ hclear hvk hvfit

/-- Witness of C8: the register with two message words of the sample codec table. -/
theorem escore_prepare_msg_roundtrip_witness :
    ∃ msg, escore_prepare_msg (codec_priv ()) 1 5 (api_word_bytes (0, 0)) 0 .ES_MSG_WRITE
        = some (0, msg, wide_entry.write_msg_len)
      ∧ decode_value wide_entry msg wide_entry.write_msg_len = 5 :=
  escore_prepare_msg_roundtrip (codec_priv ()) 1 5 (api_word_bytes (0, 0)) 0 wide_entry
    rfl rfl (Or.inr rfl) ⟨by decide, by decide⟩ (by decide)
    (by rw [spec_mask_eq _ (by decide)]; decide) (by decide)

/-- C7, the code at a failing input: in a session whose `api_addr_max` is the size of the
table, the register id `api_addr_max` passes the test `reg > escore->api_addr_max`; in
both directions `escore_prepare_msg` does not return `-EINVAL` but reads the table entry
past its end, and so do `_escore_write` and `_escore_read`. -/
theorem escore_prepare_msg_at_api_addr_max :
    (table_priv ()).api_addr_max = (table_priv ()).api_access.length
      ∧ escore_prepare_msg (table_priv ()) (table_priv ()).api_addr_max 0x2A
          (api_word_bytes (0, 0)) 0 .ES_MSG_WRITE = none
      ∧ escore_prepare_msg (table_priv ()) (table_priv ()).api_addr_max 0
          (api_word_bytes (0, 0)) 0 .ES_MSG_READ = none
      ∧ (_escore_write echo_ops (table_priv ()) (table_priv ()).api_addr_max 0x2A).isNone = true
      ∧ (_escore_read echo_ops (table_priv ()) (table_priv ()).api_addr_max).isNone = true := by
  decide

theorem escore_prepare_msg_above_max {σ : Type} (e : escore_priv σ) (reg value : Nat)
    (msg : List Nat) (len : Nat) (mt : msg_type) (hreg : e.api_addr_max < reg) :
    escore_prepare_msg e reg value msg len mt = some (- EINVAL, msg, len) := by
  simp only [escore_prepare_msg]
  rw [if_pos hreg]

theorem escore_write_above_max {σ : Type} (ops : bus_ops σ) (e : escore_priv σ)
    (reg value : Nat) (hreg : e.api_addr_max < reg) :
    _escore_write ops e reg value = some (- EINVAL, e)
      ∧ _escore_read ops e reg = some (0, e) := by
  simp only [_escore_write, _escore_read, escore_prepare_msg_above_max _ _ _ _ _ _ hreg]
  constructor
  · rw [if_pos (by decide)]
  · rw [if_pos (by decide)]

theorem escore_cmd_nopm_rc {σ : Type} (ops : bus_ops σ) (e : escore_priv σ) (cmd : Nat) :
    (escore_cmd_nopm ops e cmd).1 = (ops.cmd e.dev e.cmd_compl_mode cmd).1 := by
  simp only [escore_cmd_nopm]
  split <;> simp

theorem escore_cmd_nopm_resp {σ : Type} (ops : bus_ops σ) (e : escore_priv σ) (cmd : Nat) :
    (escore_cmd_nopm ops e cmd).2.1 = u32 (ops.cmd e.dev e.cmd_compl_mode cmd).2.1 := by
  simp only [escore_cmd_nopm]
  split <;> simp

theorem escore_cmd_nopm_frame {σ : Type} (ops : bus_ops σ) (e : escore_priv σ) (cmd : Nat) :
    (escore_cmd_nopm ops e cmd).2.2.dev = (ops.cmd e.dev e.cmd_compl_mode cmd).2.2
      ∧ (escore_cmd_nopm ops e cmd).2.2.trace = e.trace ++ [Event.cmd cmd]
      ∧ (escore_cmd_nopm ops e cmd).2.2.cmd_compl_mode = e.cmd_compl_mode
      ∧ (escore_cmd_nopm ops e cmd).2.2.pdata = e.pdata
      ∧ (escore_cmd_nopm ops e cmd).2.2.pri_intf = e.pri_intf
      ∧ (escore_cmd_nopm ops e cmd).2.2.wakeup_intf = e.wakeup_intf := by
  simp only [escore_cmd_nopm]
  split <;> simp [escore_priv.step]

theorem escore_cmd_nopm_cached {σ : Type} (ops : bus_ops σ) (e : escore_priv σ) (cmd : Nat)
    (hsr : cmd &&& 2 ^ 28 = 0) (hrc : (ops.cmd e.dev e.cmd_compl_mode cmd).1 = 0) :
    (escore_cmd_nopm ops e cmd).2.2.last_response
        = u32 (ops.cmd e.dev e.cmd_compl_mode cmd).2.1
      ∧ (escore_cmd_nopm ops e cmd).2.2.last_resp_time
        = ops.boottime (ops.cmd e.dev e.cmd_compl_mode cmd).2.2 := by
  simp only [escore_cmd_nopm]
  rw [if_neg (by rw [hsr, hrc]; simp)]
  simp [escore_priv.step]

/-- C10: when the command word has bit 28 clear and the transport reports success and
echoes the word, `escore_cmd_nopm` returns 0, gives the word back as the response and
stores it as the last response of the session. The word is a `u32`. -/
theorem escore_cmd_nopm_echo {σ : Type} (ops : bus_ops σ) (e : escore_priv σ) (cmd : Nat)
    (hcmd : cmd < 2 ^ 32) (hsr : cmd &&& 2 ^ 28 = 0)
    (hrc : (ops.cmd e.dev e.cmd_compl_mode cmd).1 = 0)
    (hecho : (ops.cmd e.dev e.cmd_compl_mode cmd).2.1 = cmd) :
    (escore_cmd_nopm ops e cmd).1 = 0
      ∧ (escore_cmd_nopm ops e cmd).2.1 = cmd
      ∧ (escore_cmd_nopm ops e cmd).2.2.last_response = cmd := by
  have hu : u32 cmd = cmd := Nat.mod_eq_of_lt hcmd
  refine ⟨?_, ?_, ?_⟩
  · rw [escore_cmd_nopm_rc, hrc]
  · rw [escore_cmd_nopm_resp, hecho, hu]
  · rw [(escore_cmd_nopm_cached ops e cmd hsr hrc).1, hecho, hu]

/-- Witness of C10: the echoing transport and the word `0x80000000`. -/
theorem escore_cmd_nopm_echo_witness :
    (escore_cmd_nopm echo_ops (sample_priv ()) 0x80000000).1 = 0
      ∧ (escore_cmd_nopm echo_ops (sample_priv ()) 0x80000000).2.1 = 0x80000000
      ∧ (escore_cmd_nopm echo_ops (sample_priv ()) 0x80000000).2.2.last_response
          = 0x80000000 :=
  escore_cmd_nopm_echo echo_ops (sample_priv ()) 0x80000000 (by decide) (by decide) rfl rfl

theorem attempts_append (a b : List Event) : attempts (a ++ b) = attempts a ++ attempts b := by
  induction a with
  | nil => rfl
  | cons x t ih => cases x <;> simp [attempts, ih]

theorem wk_frame_refl {σ : Type} (e : escore_priv σ) : wk_frame e e :=
  ⟨⟨[], by simp, rfl⟩, rfl, rfl, rfl⟩

theorem wk_frame_trans {σ : Type} {e e1 e2 : escore_priv σ} (h1 : wk_frame e e1)
    (h2 : wk_frame e1 e2) : wk_frame e e2 := by
  obtain ⟨⟨ta, hta, haa⟩, hp, hi, hw⟩ := h1
  obtain ⟨⟨tb, htb, hab⟩, hp2, hi2, hw2⟩ := h2
  refine ⟨⟨ta ++ tb, ?_, ?_⟩, hp2.trans hp, hi2.trans hi, hw2.trans hw⟩
  · rw [htb, hta, List.append_assoc]
  · rw [attempts_append, haa, hab]
    rfl

theorem wk_frame_cmd {σ : Type} (ops : bus_ops σ) (e : escore_priv σ) (cmd : Nat) :
    wk_frame e (escore_cmd_nopm ops e cmd).2.2 := by
  obtain ⟨-, ht, -, hp, hi, hw⟩ := escore_cmd_nopm_frame ops e cmd
  exact ⟨⟨[Event.cmd cmd], ht, rfl⟩, hp, hi, hw⟩

theorem wakeup_toggle_ok {σ : Type} (h : escore_hdr) (ops : bus_ops σ)
    (pd : esxxx_platform_data) (left : σ → Nat) (hd : sync_device h ops pd left)
    (e : escore_priv σ) :
    ∃ e1, wakeup_toggle ops e = (none, e1) ∧ left e1.dev = left e.dev ∧ wk_frame e e1
      ∧ e1.cmd_compl_mode = e.cmd_compl_mode := by
  unfold wakeup_toggle
  split
  · rename_i f hf
    have hsome : ops.escore_uart_wakeup = some f := by
      by_cases hu : e.wakeup_intf = intf.ES_UART_INTF
      · rw [if_pos hu] at hf
        exact hf
      · rw [if_neg hu] at hf
        cases hf
    obtain ⟨h1, h2⟩ := hd.uart_ok f e.dev hsome
    refine ⟨e.step .uart_wakeup (f e.dev).2, ?_, h2, ⟨⟨[Event.uart_wakeup], rfl, rfl⟩, rfl, rfl, rfl⟩,
      rfl⟩
    simp [h1]
  · by_cases hg : e.pdata.wakeup_gpio ≠ -1
    · rw [if_pos hg]
      exact ⟨_, rfl, rfl, ⟨⟨_, rfl, rfl⟩, rfl, rfl, rfl⟩, rfl⟩
    · rw [if_neg hg]
      exact ⟨e, rfl, rfl, wk_frame_refl e, rfl⟩

theorem wakeup_wait_ok {σ : Type} (h : escore_hdr) (ops : bus_ops σ)
    (pd : esxxx_platform_data) (left : σ → Nat) (hd : sync_device h ops pd left)
    (e : escore_priv σ) :
    (escore_api_intr_wait_completion ops e).1 = 0
      ∧ left (escore_api_intr_wait_completion ops e).2.dev = left e.dev
      ∧ wk_frame e (escore_api_intr_wait_completion ops e).2
      ∧ (escore_api_intr_wait_completion ops e).2.cmd_compl_mode = e.cmd_compl_mode := by
  obtain ⟨h1, h2⟩ := hd.wait_ok e.dev
  have heq : escore_api_intr_wait_completion ops e
      = (0, e.step .wait_for_completion (ops.wait_for_completion_timeout e.dev).2) := by
    simp only [escore_api_intr_wait_completion, if_neg h1]
  rw [heq]
  exact ⟨rfl, h2, ⟨⟨[Event.wait_for_completion], rfl, rfl⟩, rfl, rfl, rfl⟩, rfl⟩


theorem sync_word_or (h : escore_hdr) (pd : esxxx_platform_data) (hg : pd.gpioa_gpio ≠ -1) :
    sync_word h pd ||| pd.gpio_a_irq_type = sync_word h pd := by
  simp only [sync_word, if_pos hg]
  rw [Nat.or_assoc, Nat.or_self]

/-- The value of `cmd` is such that the synchronize step sends the word `sync_word`. -/
theorem wakeup_sync_ok {σ : Type} (h : escore_hdr) (ops : bus_ops σ)
    (left : σ → Nat) (e : escore_priv σ) (hd : sync_device h ops e.pdata left) (cmd : Nat)
    (hcmd : cmd = u32 (h.ES_SYNC_CMD <<< 16) ∨ cmd = sync_word h e.pdata) :
    ∃ rc e1, wakeup_sync h ops e cmd = (.cond rc (sync_word h e.pdata), e1) ∧ wk_frame e e1
      ∧ (0 < left e.dev → rc ≠ 0 ∧ left e1.dev = left e.dev - 1)
      ∧ (left e.dev = 0 → rc = 0) := by
  by_cases hg : e.pdata.gpioa_gpio ≠ -1
  · have hc : cmd ||| e.pdata.gpio_a_irq_type = sync_word h e.pdata := by
      rcases hcmd with rfl | rfl
      · simp only [sync_word, if_pos hg]
      · exact sync_word_or h e.pdata hg
    simp only [wakeup_sync, if_pos hg, hc]
    set e0 : escore_priv σ := { e with cmd_compl_mode := compl_mode.ES_CMD_COMP_INTR } with he0
    set r1 := escore_cmd_nopm ops e0 (sync_word h e.pdata ||| u32 (h.ES_SUPRESS_RESPONSE <<< 16))
      with hr1
    obtain ⟨i1, i2⟩ := hd.intr_ok e0.dev e0.cmd_compl_mode
    have hrc1 : r1.1 = 0 := by rw [hr1, escore_cmd_nopm_rc]; exact i1
    have hdev1 : left r1.2.2.dev = left e.dev := by
      rw [hr1, (escore_cmd_nopm_frame ops e0 _).1]
      exact i2
    have hf1 : wk_frame e r1.2.2 :=
      wk_frame_trans (⟨⟨[], by simp [he0], rfl⟩, rfl, rfl, rfl⟩ : wk_frame e e0)
        (wk_frame_cmd ops e0 _)
    rw [if_neg (by rw [hrc1]; decide)]
    set r2 := escore_cmd_nopm ops r1.2.2 (sync_word h e.pdata) with hr2
    have hf2 : wk_frame e r2.2.2 := wk_frame_trans hf1 (wk_frame_cmd ops r1.2.2 _)
    have hresp : r2.2.1 = u32 (ops.cmd r1.2.2.dev r1.2.2.cmd_compl_mode (sync_word h e.pdata)).2.1 := by
      rw [hr2, escore_cmd_nopm_resp]
    have hdev2 : r2.2.2.dev = (ops.cmd r1.2.2.dev r1.2.2.cmd_compl_mode (sync_word h e.pdata)).2.2 := by
      rw [hr2, (escore_cmd_nopm_frame ops r1.2.2 _).1]
    have hrc2 : r2.1 = (ops.cmd r1.2.2.dev r1.2.2.cmd_compl_mode (sync_word h e.pdata)).1 := by
      rw [hr2, escore_cmd_nopm_rc]
    by_cases hl : 0 < left e.dev
    · obtain ⟨s1, s2⟩ := hd.sync_reject r1.2.2.dev r1.2.2.cmd_compl_mode (by omega)
      refine ⟨- EIO, r2.2.2, ?_, hf2, ?_, ?_⟩
      · rw [if_pos (by rw [hresp]; exact fun hx => s1 hx.symm)]
      · intro _
        refine ⟨by decide, ?_⟩
        rw [hdev2, s2, hdev1]
      · intro h0
        omega
    · obtain ⟨s1, s2⟩ := hd.sync_accept r1.2.2.dev r1.2.2.cmd_compl_mode (by omega)
      refine ⟨r2.1, r2.2.2, ?_, hf2, ?_, ?_⟩
      · rw [if_neg (by rw [hresp, s2]; exact fun hx => hx rfl)]
      · intro h0
        omega
      · intro _
        rw [hrc2, s1]
  · have hc : cmd = sync_word h e.pdata := by
      rcases hcmd with rfl | rfl
      · simp only [sync_word, if_neg hg]
      · rfl
    simp only [wakeup_sync, if_neg hg, hc]
    set r2 := escore_cmd_nopm ops e (sync_word h e.pdata) with hr2
    have hf2 : wk_frame e r2.2.2 := wk_frame_cmd ops e _
    have hresp : r2.2.1 = u32 (ops.cmd e.dev e.cmd_compl_mode (sync_word h e.pdata)).2.1 := by
      rw [hr2, escore_cmd_nopm_resp]
    have hdev2 : r2.2.2.dev = (ops.cmd e.dev e.cmd_compl_mode (sync_word h e.pdata)).2.2 := by
      rw [hr2, (escore_cmd_nopm_frame ops e _).1]
    have hrc2 : r2.1 = (ops.cmd e.dev e.cmd_compl_mode (sync_word h e.pdata)).1 := by
      rw [hr2, escore_cmd_nopm_rc]
    by_cases hl : 0 < left e.dev
    · obtain ⟨s1, s2⟩ := hd.sync_reject e.dev e.cmd_compl_mode hl
      refine ⟨- EIO, r2.2.2, ?_, hf2, ?_, ?_⟩
      · rw [if_pos (by rw [hresp]; exact fun hx => s1 hx.symm)]
      · intro _
        refine ⟨by decide, ?_⟩
        rw [hdev2, s2]
      · intro h0
        omega
    · obtain ⟨s1, s2⟩ := hd.sync_accept e.dev e.cmd_compl_mode (by omega)
      refine ⟨r2.1, r2.2.2, ?_, hf2, ?_, ?_⟩
      · rw [if_neg (by rw [hresp, s2]; exact fun hx => hx rfl)]
      · intro h0
        omega
      · intro _
        rw [hrc2, s1]


/-- The state in which the wake signal of an attempt is given. -/
theorem wakeup_body_eq {σ : Type} (h : escore_hdr) (ops : bus_ops σ) (e : escore_priv σ)
    (cmd : Nat) :
    ∃ e0 : escore_priv σ, e0.dev = e.dev ∧ e0.pdata = e.pdata ∧ e0.pri_intf = e.pri_intf
      ∧ e0.wakeup_intf = e.wakeup_intf ∧ e0.cmd_compl_mode = e.cmd_compl_mode
      ∧ (∃ ta, e0.trace = e.trace ++ ta ∧ attempts ta = [e.cmd_compl_mode])
      ∧ wakeup_body h ops e cmd =
        (match wakeup_toggle ops e0 with
          | (some rc, e) => (wakeup_pass.exit rc, e)
          | (none, e) =>
            let w := if e.pdata.gpioa_gpio ≠ -1 then escore_api_intr_wait_completion ops e
              else (0, e)
            if w.1 ≠ 0 then (wakeup_pass.exit w.1, w.2)
            else
              let e := w.2
              if e.pri_intf = intf.ES_SPI_INTF then
                let r := escore_cmd_nopm ops e (u32 (h.ES_GET_POWER_STATE <<< 16))
                if r.1 < 0 then (wakeup_pass.cond r.1 cmd, r.2.2)
                else if r.2.1 ≠ h.ES_PS_NORMAL ∧ r.2.1 ≠ h.ES_PS_OVERLAY then
                  (wakeup_pass.cond (-1) cmd, r.2.2)
                else wakeup_sync h ops r.2.2 cmd
              else wakeup_sync h ops e cmd) := by
  by_cases hg : e.pdata.gpioa_gpio ≠ -1
  · refine ⟨escore_set_api_intr_wait
        { e with trace := e.trace ++ [Event.attempt e.cmd_compl_mode] }, rfl, rfl, rfl, rfl, rfl,
      ⟨_, List.append_assoc _ _ _, rfl⟩, ?_⟩
    simp only [wakeup_body, if_pos hg]
  · refine ⟨{ e with trace := e.trace ++ [Event.attempt e.cmd_compl_mode] }, rfl, rfl, rfl, rfl,
      rfl, ⟨_, rfl, rfl⟩, ?_⟩
    simp only [wakeup_body, if_neg hg]

theorem wakeup_body_ok {σ : Type} (h : escore_hdr) (ops : bus_ops σ)
    (left : σ → Nat) (e : escore_priv σ) (hd : sync_device h ops e.pdata left) (cmd : Nat)
    (hcmd : cmd = u32 (h.ES_SYNC_CMD <<< 16) ∨ cmd = sync_word h e.pdata) :
    ∃ rc e1 ta, wakeup_body h ops e cmd = (.cond rc (sync_word h e.pdata), e1)
      ∧ e1.trace = e.trace ++ ta ∧ attempts ta = [e.cmd_compl_mode]
      ∧ e1.pdata = e.pdata ∧ e1.pri_intf = e.pri_intf ∧ e1.wakeup_intf = e.wakeup_intf
      ∧ (0 < left e.dev → rc ≠ 0 ∧ left e1.dev = left e.dev - 1)
      ∧ (left e.dev = 0 → rc = 0) := by
  obtain ⟨e0, hdev0, hp0, hi0, hw0, -, ⟨t0, ht0, ha0⟩, hbody⟩ := wakeup_body_eq h ops e cmd
  rw [hbody]
  obtain ⟨e1, htog, hl1, hf1, -⟩ := wakeup_toggle_ok h ops e.pdata left hd e0
  rw [htog]
  simp only []
  -- the wait for the interrupt
  have hwait : ∃ e2, (if e1.pdata.gpioa_gpio ≠ -1 then escore_api_intr_wait_completion ops e1
      else (0, e1)) = (0, e2) ∧ left e2.dev = left e1.dev ∧ wk_frame e1 e2 := by
    by_cases hg : e1.pdata.gpioa_gpio ≠ -1
    · rw [if_pos hg]
      obtain ⟨w1, w2, w3, -⟩ := wakeup_wait_ok h ops e.pdata left hd e1
      exact ⟨(escore_api_intr_wait_completion ops e1).2, Prod.ext w1 rfl, w2, w3⟩
    · rw [if_neg hg]
      exact ⟨e1, rfl, rfl, wk_frame_refl e1⟩
  obtain ⟨e2, hw, hl2, hf2⟩ := hwait
  rw [hw]
  simp only [ne_eq, not_true_eq_false, if_false]
  have hf02 : wk_frame e0 e2 := wk_frame_trans hf1 hf2
  -- the power state query
  have hpow : ∃ e3, (if e2.pri_intf = intf.ES_SPI_INTF then
        (if (escore_cmd_nopm ops e2 (u32 (h.ES_GET_POWER_STATE <<< 16))).1 < 0 then
          (wakeup_pass.cond (escore_cmd_nopm ops e2 (u32 (h.ES_GET_POWER_STATE <<< 16))).1 cmd,
            (escore_cmd_nopm ops e2 (u32 (h.ES_GET_POWER_STATE <<< 16))).2.2)
        else if ¬ (escore_cmd_nopm ops e2 (u32 (h.ES_GET_POWER_STATE <<< 16))).2.1
              = h.ES_PS_NORMAL
            ∧ ¬ (escore_cmd_nopm ops e2 (u32 (h.ES_GET_POWER_STATE <<< 16))).2.1
              = h.ES_PS_OVERLAY then
          (wakeup_pass.cond (-1) cmd,
            (escore_cmd_nopm ops e2 (u32 (h.ES_GET_POWER_STATE <<< 16))).2.2)
        else wakeup_sync h ops (escore_cmd_nopm ops e2 (u32 (h.ES_GET_POWER_STATE <<< 16))).2.2
          cmd)
      else wakeup_sync h ops e2 cmd) = wakeup_sync h ops e3 cmd
      ∧ left e3.dev = left e2.dev ∧ wk_frame e2 e3 := by
    by_cases hs : e2.pri_intf = intf.ES_SPI_INTF
    · rw [if_pos hs]
      obtain ⟨p1, p2, p3⟩ := hd.power_ok e2.dev e2.cmd_compl_mode
      refine ⟨(escore_cmd_nopm ops e2 (u32 (h.ES_GET_POWER_STATE <<< 16))).2.2, ?_, ?_,
        wk_frame_cmd ops e2 _⟩
      · rw [if_neg (by rw [escore_cmd_nopm_rc, p1]; decide), escore_cmd_nopm_resp]
        rw [if_neg (by tauto)]
      · rw [(escore_cmd_nopm_frame ops e2 _).1, p3]
    · rw [if_neg hs]
      exact ⟨e2, rfl, rfl, wk_frame_refl e2⟩
  obtain ⟨e3, hp, hl3, hf3⟩ := hpow
  rw [hp]
  have hf03 : wk_frame e0 e3 := wk_frame_trans hf02 hf3
  have hpd3 : e3.pdata = e.pdata := hf03.2.1.trans hp0
  have hd3 : sync_device h ops e3.pdata left := by rw [hpd3]; exact hd
  obtain ⟨rc, e4, hsync, hf4, hrej, hacc⟩ :=
    wakeup_sync_ok h ops left e3 hd3 cmd (by rw [hpd3]; exact hcmd)
  have hf04 : wk_frame e0 e4 := wk_frame_trans hf03 hf4
  obtain ⟨⟨tb, htb, hab⟩, hq1, hq2, hq3⟩ := hf04
  have hl03 : left e3.dev = left e.dev := by rw [hl3, hl2, hl1, hdev0]
  refine ⟨rc, e4, t0 ++ tb, ?_, ?_, ?_, hq1.trans hp0, hq2.trans hi0, hq3.trans hw0, ?_, ?_⟩
  · rw [hsync, hpd3]
  · rw [htb, ht0, List.append_assoc]
  · rw [attempts_append, ha0, hab]
    rfl
  · intro hpos
    obtain ⟨r1, r2⟩ := hrej (by omega)
    exact ⟨r1, by rw [r2, hl03]⟩
  · intro hz
    exact hacc (by omega)


theorem wakeup_loop_ok {σ : Type} (h : escore_hdr) (ops : bus_ops σ) (left : σ → Nat) :
    ∀ (more : Nat) (e : escore_priv σ) (cmd : Nat), sync_device h ops e.pdata left →
      (cmd = u32 (h.ES_SYNC_CMD <<< 16) ∨ cmd = sync_word h e.pdata) → left e.dev ≤ more →
      ∃ e1 ta, wakeup_loop h ops more e cmd = (.cond 0 (sync_word h e.pdata), e1)
        ∧ e1.trace = e.trace ++ ta ∧ (attempts ta).length = left e.dev + 1 := by
  intro more
  induction more with
  | zero =>
    intro e cmd hd hcmd hl
    obtain ⟨rc, e1, ta, hb, ht, ha, -, -, -, -, hacc⟩ := wakeup_body_ok h ops left e hd cmd hcmd
    have hz : left e.dev = 0 := by omega
    refine ⟨e1, ta, ?_, ht, ?_⟩
    · simp only [wakeup_loop, hb, hacc hz]
    · rw [ha, hz]
      rfl
  | succ m ih =>
    intro e cmd hd hcmd hl
    obtain ⟨rc, e1, ta, hb, ht, ha, hp, -, -, hrej, hacc⟩ :=
      wakeup_body_ok h ops left e hd cmd hcmd
    by_cases hz : left e.dev = 0
    · refine ⟨e1, ta, ?_, ht, ?_⟩
      · simp only [wakeup_loop, hb, hacc hz]
        rfl
      · rw [ha, hz]
        rfl
    · obtain ⟨hrc, hl1⟩ := hrej (by omega)
      obtain ⟨e2, tb, hloop, ht2, ha2⟩ :=
        ih e1 (sync_word h e.pdata) (by rw [hp]; exact hd) (Or.inr (by rw [hp])) (by omega)
      refine ⟨e2, ta ++ tb, ?_, ?_, ?_⟩
      · simp only [wakeup_loop, hb, if_pos hrc]
        rw [hloop, hp]
      · rw [ht2, ht, List.append_assoc]
      · rw [attempts_append, List.length_append, ha, ha2, hl1]
        simp only [List.length_singleton]
        omega

/-- C6: if the device rejects the synchronize echo on the attempts `1..N-1` and echoes
the word on attempt `N`, with `1 ≤ N ≤ 20` and every other step succeeding,
`escore_wakeup` makes exactly `N` attempts, then sends the command that sets the smooth
mute rate to zero, and returns 0. -/
theorem escore_wakeup_ready {σ : Type} (h : escore_hdr) (ops : bus_ops σ) (left : σ → Nat)
    (e : escore_priv σ) (N : Nat) (hN1 : 1 ≤ N) (hN : N ≤ 20)
    (hd : sync_device h ops e.pdata left) (hleft : left e.dev = N - 1) :
    ∃ e1 t, escore_wakeup h ops e = (0, e1)
      ∧ e1.trace = e.trace ++ t ++ [Event.cmd (smooth_mute_cmd h)]
      ∧ (attempts t).length = N := by
  have hpre : ∃ e0 : escore_priv σ, e0.dev = e.dev ∧ e0.pdata = e.pdata
      ∧ (∃ tc, e0.trace = e.trace ++ tc ∧ attempts tc = [])
      ∧ escore_wakeup h ops e =
        (match wakeup_loop h ops 19 e0 (u32 (h.ES_SYNC_CMD <<< 16)) with
          | (.exit rc, e) => (rc, e)
          | (.cond _ _, e) =>
            ((escore_cmd_nopm ops e (smooth_mute_cmd h)).1,
              (escore_cmd_nopm ops e (smooth_mute_cmd h)).2.2)) := by
    by_cases hc : e.pdata.esxxx_clk_cb = true
    · refine ⟨{ e with
          trace := e.trace ++ [Event.clk_cb 1],
          cmd_compl_mode := compl_mode.ES_CMD_COMP_POLL }, rfl, rfl, ⟨_, rfl, rfl⟩, ?_⟩
      simp only [escore_wakeup, hc, if_true]
    · refine ⟨{ e with cmd_compl_mode := compl_mode.ES_CMD_COMP_POLL }, rfl, rfl,
        ⟨[], by simp, rfl⟩, ?_⟩
      simp only [escore_wakeup, hc]
      rfl
  obtain ⟨e0, hdev0, hp0, ⟨tc, htc, hac⟩, heq⟩ := hpre
  obtain ⟨e1, ta, hloop, ht, ha⟩ :=
    wakeup_loop_ok h ops left 19 e0 (u32 (h.ES_SYNC_CMD <<< 16)) (by rw [hp0]; exact hd)
      (Or.inl rfl) (by rw [hdev0]; omega)
  rw [heq, hloop]
  simp only []
  refine ⟨(escore_cmd_nopm ops e1 (smooth_mute_cmd h)).2.2, tc ++ ta, ?_, ?_, ?_⟩
  · rw [escore_cmd_nopm_rc, (hd.mute_ok e1.dev e1.cmd_compl_mode)]
  · rw [(escore_cmd_nopm_frame ops e1 _).2.1, ht, htc]
    simp only [List.append_assoc]
  · rw [attempts_append, hac, List.nil_append, ha, hdev0, hleft]
    omega

theorem countdown_ops_sync_device :
    sync_device sample_hdr countdown_ops (sample_priv (2 : Nat)).pdata (fun s => s) := by
  have hsw : sync_word sample_hdr (sample_priv (2 : Nat)).pdata = 0x80000000 := by decide
  refine ⟨?_, ?_, ?_, ?_, ?_, ?_, ?_⟩
  · intro f s hf
    cases hf
  · intro s
    exact ⟨Nat.one_ne_zero, rfl⟩
  · intro s m
    exact ⟨rfl, Or.inl rfl, rfl⟩
  · intro s m
    rw [hsw]
    exact ⟨rfl, rfl⟩
  · intro s m hs
    rw [hsw]
    have hne : s ≠ 0 := by omega
    simp [countdown_ops, hne, u32]
  · intro s m hs
    rw [hsw]
    subst hs
    exact ⟨rfl, rfl⟩
  · intro s m
    rfl

/-- Witness of C6: the device that rejects two echoes, so `N = 3`. -/
theorem escore_wakeup_ready_witness :
    ∃ e1 t, escore_wakeup sample_hdr countdown_ops (sample_priv (2 : Nat)) = (0, e1)
      ∧ e1.trace = (sample_priv (2 : Nat)).trace ++ t ++ [Event.cmd (smooth_mute_cmd sample_hdr)]
      ∧ (attempts t).length = 3 :=
  escore_wakeup_ready sample_hdr countdown_ops (fun s => s) (sample_priv (2 : Nat)) 3
    (by decide) (by decide) countdown_ops_sync_device rfl

/-- C5, the code at a failing input: the device answers every command with result 0 and
the word 0, so the synchronize echo is rejected on every attempt. `escore_wakeup` makes
20 attempts, sends the smooth mute command and returns 0. -/
theorem escore_wakeup_never_accepted :
    (escore_wakeup sample_hdr silent_ops (sample_priv ())).1 = 0
      ∧ (attempts (escore_wakeup sample_hdr silent_ops (sample_priv ())).2.trace).length = 20
      ∧ bus_cmds (escore_wakeup sample_hdr silent_ops (sample_priv ())).2.trace
          = List.replicate 20 (sync_word sample_hdr (sample_priv ()).pdata)
              ++ [smooth_mute_cmd sample_hdr] := by
  decide

/-- C11: if bit 28 of the command word is set or the transport's send returns a value other
than 0, `escore_cmd_nopm` returns the result of the transport and leaves the cached last
response and its time stamp as they were. -/
theorem escore_cmd_nopm_no_cache {σ : Type} (ops : bus_ops σ) (e : escore_priv σ) (cmd : Nat)
    (hs : cmd &&& 2 ^ 28 ≠ 0 ∨ (ops.cmd e.dev e.cmd_compl_mode cmd).1 ≠ 0) :
    (escore_cmd_nopm ops e cmd).1 = (ops.cmd e.dev e.cmd_compl_mode cmd).1
      ∧ (escore_cmd_nopm ops e cmd).2.2.last_response = e.last_response
      ∧ (escore_cmd_nopm ops e cmd).2.2.last_resp_time = e.last_resp_time := by
  have hc : (ops.cmd e.dev e.cmd_compl_mode cmd).1 ≠ 0 ∨ cmd &&& 2 ^ 28 ≠ 0 := hs.symm
  simp only [escore_cmd_nopm]
  rw [if_pos hc]
  exact ⟨rfl, rfl, rfl⟩

/-- Witness of C11: a word with bit 28 set, sent over the echoing transport. -/
theorem escore_cmd_nopm_no_cache_witness :
    (escore_cmd_nopm echo_ops (stale_priv ()) 0x90000000).1
        = (echo_ops.cmd (stale_priv ()).dev (stale_priv ()).cmd_compl_mode 0x90000000).1
      ∧ (escore_cmd_nopm echo_ops (stale_priv ()) 0x90000000).2.2.last_response
        = (stale_priv ()).last_response
      ∧ (escore_cmd_nopm echo_ops (stale_priv ()) 0x90000000).2.2.last_resp_time
        = (stale_priv ()).last_resp_time :=
  escore_cmd_nopm_no_cache echo_ops (stale_priv ()) 0x90000000 (Or.inl (by decide))

/-- C14, the code at a failing input: the word `0x80000000` has bit 28 clear, the transport
returns 0 and leaves the response word 0 (no response). `escore_cmd_nopm` returns 0, not
`-ETIMEDOUT`, and replaces the cached response `0x1234` by 0. -/
theorem escore_cmd_nopm_no_response :
    (0x80000000 : Nat) &&& 2 ^ 28 = 0
      ∧ silent_ops.cmd () compl_mode.ES_CMD_COMP_POLL 0x80000000 = (0, 0, ())
      ∧ (stale_priv ()).last_response = 0x1234
      ∧ (escore_cmd_nopm silent_ops (stale_priv ()) 0x80000000).1 = 0
      ∧ (escore_cmd_nopm silent_ops (stale_priv ()) 0x80000000).2.1 = 0
      ∧ (escore_cmd_nopm silent_ops (stale_priv ()) 0x80000000).2.2.last_response = 0 := by
  decide

set_option maxRecDepth 8000 in
/-- C15, the code at a failing input: a device with an interrupt line accepts the switch to
interrupt mode and rejects every synchronize echo. The first attempt begins in the mode
`Poll`, every retry begins in the mode `Interrupt`. -/
theorem escore_wakeup_retry_mode :
    (intr_priv ()).pdata.gpioa_gpio ≠ -1
      ∧ attempts (escore_wakeup sample_hdr silent_ops (intr_priv ())).2.trace
        = compl_mode.ES_CMD_COMP_POLL :: List.replicate 19 compl_mode.ES_CMD_COMP_INTR := by
  decide


theorem with_pm_failure {σ α : Type} (ops : bus_ops σ) (e : escore_priv σ) (dflt : Int → α)
    (op : escore_priv σ → α × escore_priv σ) (hpm : (ops.pm_get_sync e.dev).1 < 0) :
    with_pm ops e dflt op
      = (dflt (ops.pm_get_sync e.dev).1, e.step .pm_get_sync (ops.pm_get_sync e.dev).2) := by
  simp only [with_pm]
  rw [if_neg (by omega)]

/-- What the locked operations do when the resume vote fails: the only calls are
`mutex_lock`, `escore_pm_get_sync` and `mutex_unlock`; `escore_cmd_locked` and
`escore_write_locked` return the result of the vote, `escore_read_locked` returns 0. -/
theorem locked_pm_failure {σ : Type} (ops : bus_ops σ) (e : escore_priv σ) (x y : Nat)
    (hpm : (ops.pm_get_sync e.dev).1 < 0) :
    (escore_cmd_locked ops e x).1 = ((ops.pm_get_sync e.dev).1, none)
      ∧ (escore_cmd_locked ops e x).2.trace
        = e.trace ++ [Event.mutex_lock, Event.pm_get_sync, Event.mutex_unlock]
      ∧ (escore_write_locked ops e x y).1 = some (ops.pm_get_sync e.dev).1
      ∧ (escore_write_locked ops e x y).2.trace
        = e.trace ++ [Event.mutex_lock, Event.pm_get_sync, Event.mutex_unlock]
      ∧ (escore_read_locked ops e x).1 = some 0
      ∧ (escore_read_locked ops e x).2.trace
        = e.trace ++ [Event.mutex_lock, Event.pm_get_sync, Event.mutex_unlock] := by
  have hpm1 : (ops.pm_get_sync
      ({ e with trace := e.trace ++ [Event.mutex_lock] } : escore_priv σ).dev).1 < 0 := hpm
  simp only [escore_cmd_locked, escore_write_locked, escore_read_locked, with_lock,
    with_pm_failure ops _ _ _ hpm1, escore_priv.step]
  simp

/-- C12, the code at a failing input: the resume vote fails with -1. `escore_read_locked`
makes no call to the transport, does not release an autosuspend vote and unlocks, but it
returns 0, the value it also returns for a successful read of a register that holds 0;
`escore_cmd_locked` and `escore_write_locked` return -1. -/
theorem escore_read_locked_pm_failure :
    pm_fail_ops.pm_get_sync () = (-1, ())
      ∧ (escore_read_locked pm_fail_ops (table_priv ()) 0x10).1 = some 0
      ∧ (escore_read_locked pm_fail_ops (table_priv ()) 0x10).2.trace
        = [Event.mutex_lock, Event.pm_get_sync, Event.mutex_unlock]
      ∧ (escore_read_locked echo_ops (table_priv ()) 0x10).1 = some 0
      ∧ (escore_write_locked pm_fail_ops (table_priv ()) 0x10 0x2A).1 = some (-1)
      ∧ (escore_cmd_locked pm_fail_ops (table_priv ()) 0x80000000).1 = (-1, none) := by
  decide

theorem escore_write_words_one {σ : Type} (ops : bus_ops σ) (e : escore_priv σ) (w : Nat)
    (rc : Int) :
    escore_write_words ops [w] e rc
      = ((escore_cmd_nopm ops e w).1, (escore_cmd_nopm ops e w).2.2) := by
  simp only [escore_write_words]
  split <;> rfl

theorem escore_write_words_two {σ : Type} (ops : bus_ops σ) (e : escore_priv σ) (w0 w1 : Nat)
    (rc : Int) :
    escore_write_words ops [w0, w1] e rc
      = if (escore_cmd_nopm ops e w0).1 < 0 then
          ((escore_cmd_nopm ops e w0).1, (escore_cmd_nopm ops e w0).2.2)
        else ((escore_cmd_nopm ops (escore_cmd_nopm ops e w0).2.2 w1).1,
          (escore_cmd_nopm ops (escore_cmd_nopm ops e w0).2.2 w1).2.2) := by
  rw [escore_write_words]
  simp only [escore_write_words_one]

/-- C13: for a register of the table `_escore_write` sends the words of the message that
`escore_prepare_msg` builds, in order. A message of 4 bytes is one word, and the result of
sending it is returned. For a message of 8 bytes word 0 is sent first; if that send fails
(its result is negative) word 1 is not sent and the result is returned, otherwise word 1 is
sent and its result returned. For the register `0x10` of the sample table and the echoing
transport, writing `0x2A` sends the one word `0x0000002A`, returns 0 and leaves the cached
response `0x0000002A`. -/
theorem escore_write_sends_words :
    (∀ {σ : Type} (ops : bus_ops σ) (e : escore_priv σ) (reg value : Nat)
        (a : escore_api_access), e.api_addr_max = e.api_access.length →
        e.api_access[reg]? = some a →
        ∃ msg, escore_prepare_msg e reg value (api_word_bytes (0, 0)) 0 .ES_MSG_WRITE
            = some (0, msg, a.write_msg_len)
          ∧ (a.write_msg_len = 4 →
              ∃ e1, _escore_write ops e reg value
                  = some ((ops.cmd e.dev e.cmd_compl_mode (api_word_at msg 0)).1, e1)
                ∧ e1.trace = e.trace ++ [Event.cmd (api_word_at msg 0)])
          ∧ (a.write_msg_len = 8 →
              ((ops.cmd e.dev e.cmd_compl_mode (api_word_at msg 0)).1 < 0 →
                ∃ e1, _escore_write ops e reg value
                    = some ((ops.cmd e.dev e.cmd_compl_mode (api_word_at msg 0)).1, e1)
                  ∧ e1.trace = e.trace ++ [Event.cmd (api_word_at msg 0)])
              ∧ (0 ≤ (ops.cmd e.dev e.cmd_compl_mode (api_word_at msg 0)).1 →
                ∃ e1, _escore_write ops e reg value
                    = some ((ops.cmd (ops.cmd e.dev e.cmd_compl_mode (api_word_at msg 0)).2.2
                        e.cmd_compl_mode (api_word_at msg 1)).1, e1)
                  ∧ e1.trace = e.trace
                      ++ [Event.cmd (api_word_at msg 0), Event.cmd (api_word_at msg 1)])))
    ∧ ((table_priv ()).api_access[0x10]? = some sample_entry
        ∧ (_escore_write echo_ops (table_priv ()) 0x10 0x2A).map
            (fun r => (r.1, r.2.trace, r.2.last_response))
          = some (0, [Event.cmd 0x0000002A], 0x0000002A)) := by
  refine ⟨?_, by decide, by decide⟩
  intro σ ops e reg value a hsize ha
  have hreg : reg ≤ e.api_addr_max := by
    have := lt_length_of_getElem? _ _ _ ha
    omega
  have hgen : ∃ msg, escore_prepare_msg e reg value (api_word_bytes (0, 0)) 0 .ES_MSG_WRITE
      = some (0, msg, a.write_msg_len) := by
    simp only [escore_prepare_msg, if_neg (not_lt.mpr hreg), ha]
    exact ⟨_, rfl⟩
  obtain ⟨msg, hmsg⟩ := hgen
  refine ⟨msg, hmsg, ?_, ?_⟩
  · intro hl
    have hw : _escore_write ops e reg value
        = some (escore_write_words ops [api_word_at msg 0] e 0) := by
      simp only [_escore_write, hmsg, hl]
      rfl
    rw [hw, escore_write_words_one]
    exact ⟨_, by rw [escore_cmd_nopm_rc], (escore_cmd_nopm_frame ops e _).2.1⟩
  · intro hl
    have hw : _escore_write ops e reg value
        = some (escore_write_words ops [api_word_at msg 0, api_word_at msg 1] e 0) := by
      simp only [_escore_write, hmsg, hl]
      rfl
    rw [hw, escore_write_words_two]
    obtain ⟨hd0, ht0, hm0, -⟩ := escore_cmd_nopm_frame ops e (api_word_at msg 0)
    constructor
    · intro hneg
      rw [if_pos (by rw [escore_cmd_nopm_rc]; exact hneg)]
      exact ⟨_, by rw [escore_cmd_nopm_rc], ht0⟩
    · intro hpos
      rw [if_neg (by rw [escore_cmd_nopm_rc]; omega)]
      refine ⟨_, by rw [escore_cmd_nopm_rc, hd0, hm0], ?_⟩
      rw [(escore_cmd_nopm_frame ops _ _).2.1, ht0, List.append_assoc]
      rfl


/-- Witness of C13: the register with two message words of the sample codec table and the
echoing transport. -/
theorem escore_write_sends_words_witness :
    ∃ msg, escore_prepare_msg (codec_priv ()) 1 5 (api_word_bytes (0, 0)) 0 .ES_MSG_WRITE
        = some (0, msg, wide_entry.write_msg_len)
      ∧ (wide_entry.write_msg_len = 4 →
          ∃ e1, _escore_write echo_ops (codec_priv ()) 1 5
              = some ((echo_ops.cmd (codec_priv ()).dev (codec_priv ()).cmd_compl_mode
                  (api_word_at msg 0)).1, e1)
            ∧ e1.trace = (codec_priv ()).trace ++ [Event.cmd (api_word_at msg 0)])
      ∧ (wide_entry.write_msg_len = 8 →
          ((echo_ops.cmd (codec_priv ()).dev (codec_priv ()).cmd_compl_mode
              (api_word_at msg 0)).1 < 0 →
            ∃ e1, _escore_write echo_ops (codec_priv ()) 1 5
                = some ((echo_ops.cmd (codec_priv ()).dev (codec_priv ()).cmd_compl_mode
                    (api_word_at msg 0)).1, e1)
              ∧ e1.trace = (codec_priv ()).trace ++ [Event.cmd (api_word_at msg 0)])
          ∧ (0 ≤ (echo_ops.cmd (codec_priv ()).dev (codec_priv ()).cmd_compl_mode
              (api_word_at msg 0)).1 →
            ∃ e1, _escore_write echo_ops (codec_priv ()) 1 5
                = some ((echo_ops.cmd
                    (echo_ops.cmd (codec_priv ()).dev (codec_priv ()).cmd_compl_mode
                      (api_word_at msg 0)).2.2
                    (codec_priv ()).cmd_compl_mode (api_word_at msg 1)).1, e1)
              ∧ e1.trace = (codec_priv ()).trace
                  ++ [Event.cmd (api_word_at msg 0), Event.cmd (api_word_at msg 1)])) :=
  escore_write_sends_words.1 echo_ops (codec_priv ()) 1 5 wide_entry rfl rfl

theorem hb_cmds_replicate_read (n k : Nat) :
    hb_cmds (List.replicate n (Event.high_bw_read k)) = [] := by
  induction n with
  | zero => rfl
  | succ m ih => simp [List.replicate_succ, hb_cmds, ih]

theorem hb_writes_replicate_read (n k : Nat) :
    hb_writes (List.replicate n (Event.high_bw_read k)) = [] := by
  induction n with
  | zero => rfl
  | succ m ih => simp [List.replicate_succ, hb_writes, ih]

theorem wdb_ack_loop_never {σ : Type} (h : escore_hdr) (ops : bus_ops σ) (Due : σ → Prop)
    (count : σ → Nat) (hspi : h.CONFIG_SPI = false) (hn : wdb_never_acks h ops Due count) :
    ∀ (n : Nat) (e : escore_priv σ) (rc : Int), Due e.dev →
      ∃ e1, wdb_ack_loop h ops n e rc = (Flow.next (if n = 0 then rc else - EIO), e1)
        ∧ Due e1.dev ∧ count e1.dev = count e.dev + n
        ∧ e1.trace = e.trace ++ List.replicate n (Event.high_bw_read 4) := by
  intro n
  induction n with
  | zero =>
    intro e rc hd
    exact ⟨e, by simp [wdb_ack_loop], hd, rfl, by simp⟩
  | succ m ih =>
    intro e rc hd
    have hr := hn e.dev hd
    simp only [ack_rejected, hspi, Bool.false_eq_true, if_false] at hr
    obtain ⟨r1, r2, r3, r4⟩ := hr
    obtain ⟨e1, h1, h2, h3, h4⟩ :=
      ih (e.step (.high_bw_read 4) (ops.high_bw_read e.dev 4).2.2) (- EIO) r3
    refine ⟨e1, ?_, h2, ?_, ?_⟩
    · simp only [wdb_ack_loop]
      rw [if_neg (not_lt.mpr r1), if_pos r2, h1]
      cases m <;> simp
    · rw [h3]
      show count (ops.high_bw_read e.dev 4).2.2 + m = count e.dev + (m + 1)
      rw [r4]
      omega
    · rw [h4, List.replicate_succ]
      simp [escore_priv.step]

theorem wdb_ack_loop_spi_never {σ : Type} (h : escore_hdr) (ops : bus_ops σ)
    (Due : σ → Prop) (count : σ → Nat) (hspi : h.CONFIG_SPI = true)
    (hn : wdb_never_acks h ops Due count) :
    ∀ (n : Nat) (e : escore_priv σ) (rc : Int), Due e.dev →
      ∃ e1 tr, wdb_ack_loop_spi h ops n e rc = (Flow.next (if n = 0 then rc else - EIO), e1)
        ∧ Due e1.dev ∧ count e1.dev = count e.dev + n
        ∧ e1.trace = e.trace ++ tr ∧ hb_cmds tr = [] ∧ hb_writes tr = [] := by
  intro n
  induction n with
  | zero =>
    intro e rc hd
    exact ⟨e, [], by simp [wdb_ack_loop_spi], hd, rfl, by simp, rfl, rfl⟩
  | succ m ih =>
    intro e rc hd
    have hr := hn e.dev hd
    simp only [ack_rejected, hspi, if_true] at hr
    obtain ⟨r1, hcase⟩ := hr
    rcases hcase with ⟨c1, c2, c3⟩ | ⟨c1, c2, c3, c4, c5⟩
    · obtain ⟨e1, tr, h1, h2, h3, h4, h5, h6⟩ :=
        ih (e.step (.high_bw_read 2) (ops.high_bw_read e.dev 2).2.2) (- EIO) c2
      refine ⟨e1, Event.high_bw_read 2 :: tr, ?_, h2, ?_, ?_, ?_, ?_⟩
      · simp only [wdb_ack_loop_spi]
        rw [if_neg (not_lt.mpr r1), if_neg c1, h1]
        cases m <;> simp
      · rw [h3]
        show count (ops.high_bw_read e.dev 2).2.2 + m = count e.dev + (m + 1)
        rw [c3]
        omega
      · rw [h4]
        simp [escore_priv.step]
      · simp [hb_cmds, h5]
      · simp [hb_writes, h6]
    · obtain ⟨e1, tr, h1, h2, h3, h4, h5, h6⟩ :=
        ih ((e.step (.high_bw_read 2) (ops.high_bw_read e.dev 2).2.2).step (.high_bw_read 2)
          (ops.high_bw_read (ops.high_bw_read e.dev 2).2.2 2).2.2) (- EIO) c4
      refine ⟨e1, Event.high_bw_read 2 :: Event.high_bw_read 2 :: tr, ?_, h2, ?_, ?_, ?_, ?_⟩
      · simp only [wdb_ack_loop_spi]
        rw [if_neg (not_lt.mpr r1)]
        simp only [c1, if_true]
        simp only [escore_priv.step]
        rw [if_neg (not_lt.mpr c2), if_pos c3]
        simp only [escore_priv.step] at h1
        rw [h1]
        cases m <;> simp
      · rw [h3]
        show count (ops.high_bw_read (ops.high_bw_read e.dev 2).2.2 2).2.2 + m
          = count e.dev + (m + 1)
        rw [c5]
        omega
      · rw [h4]
        simp [escore_priv.step]
      · simp [hb_cmds, h5]
      · simp [hb_writes, h6]


theorem wdb_ack_loop_late {σ : Type} (h : escore_hdr) (ops : bus_ops σ)
    (Idle Due : σ → Prop) (left : σ → Nat) (hspi : h.CONFIG_SPI = false)
    (hl : wdb_late_acking h ops Idle Due left) :
    ∀ (n : Nat) (e : escore_priv σ) (rc : Int), Due e.dev → left e.dev < n →
      ∃ rc1 e1 tr, wdb_ack_loop h ops n e rc = (Flow.next rc1, e1) ∧ 0 ≤ rc1 ∧ Idle e1.dev
        ∧ e1.trace = e.trace ++ tr ∧ hb_cmds tr = [] ∧ hb_writes tr = [] := by
  intro n
  induction n with
  | zero =>
    intro e rc _ hlt
    omega
  | succ m ih =>
    intro e rc hd hlt
    by_cases hz : left e.dev = 0
    · have ha := hl.accept e.dev hd hz
      simp only [ack_accepted, hspi, Bool.false_eq_true, if_false] at ha
      obtain ⟨a1, a2, a3⟩ := ha
      refine ⟨(ops.high_bw_read e.dev 4).1,
        e.step (.high_bw_read 4) (ops.high_bw_read e.dev 4).2.2, [Event.high_bw_read 4],
        ?_, a1, a3, rfl, rfl, rfl⟩
      simp only [wdb_ack_loop]
      rw [if_neg (not_lt.mpr a1), if_neg (not_not.mpr a2)]
    · have hr := hl.reject e.dev hd (by omega)
      simp only [ack_rejected, hspi, Bool.false_eq_true, if_false] at hr
      obtain ⟨r1, r2, r3, r4⟩ := hr
      obtain ⟨rc1, e1, tr, h1, h2, h3, h4, h5, h6⟩ :=
        ih (e.step (.high_bw_read 4) (ops.high_bw_read e.dev 4).2.2) (- EIO) r3
          (by show left (ops.high_bw_read e.dev 4).2.2 < m; rw [r4]; omega)
      refine ⟨rc1, e1, Event.high_bw_read 4 :: tr, ?_, h2, h3, ?_, ?_, ?_⟩
      · simp only [wdb_ack_loop]
        rw [if_neg (not_lt.mpr r1), if_pos r2, h1]
      · rw [h4]
        simp [escore_priv.step]
      · simp [hb_cmds, h5]
      · simp [hb_writes, h6]

theorem wdb_ack_loop_spi_late {σ : Type} (h : escore_hdr) (ops : bus_ops σ)
    (Idle Due : σ → Prop) (left : σ → Nat) (hspi : h.CONFIG_SPI = true)
    (hl : wdb_late_acking h ops Idle Due left) :
    ∀ (n : Nat) (e : escore_priv σ) (rc : Int), Due e.dev → left e.dev < n →
      ∃ rc1 e1 tr, wdb_ack_loop_spi h ops n e rc = (Flow.next rc1, e1) ∧ 0 ≤ rc1
        ∧ Idle e1.dev
        ∧ e1.trace = e.trace ++ tr ∧ hb_cmds tr = [] ∧ hb_writes tr = [] := by
  intro n
  induction n with
  | zero =>
    intro e rc _ hlt
    omega
  | succ m ih =>
    intro e rc hd hlt
    by_cases hz : left e.dev = 0
    · have ha := hl.accept e.dev hd hz
      simp only [ack_accepted, hspi, if_true] at ha
      obtain ⟨a1, a2, a3, a4, a5⟩ := ha
      refine ⟨(ops.high_bw_read (ops.high_bw_read e.dev 2).2.2 2).1,
        (e.step (.high_bw_read 2) (ops.high_bw_read e.dev 2).2.2).step (.high_bw_read 2)
          (ops.high_bw_read (ops.high_bw_read e.dev 2).2.2 2).2.2,
        [Event.high_bw_read 2, Event.high_bw_read 2], ?_, a3, a5, ?_, rfl, rfl⟩
      · simp only [wdb_ack_loop_spi]
        rw [if_neg (not_lt.mpr a1)]
        simp only [a2, if_true]
        simp only [escore_priv.step]
        rw [if_neg (not_lt.mpr a3)]
        simp [a4]
      · simp [escore_priv.step]
    · have hr := hl.reject e.dev hd (by omega)
      simp only [ack_rejected, hspi, if_true] at hr
      obtain ⟨r1, hcase⟩ := hr
      rcases hcase with ⟨c1, c2, c3⟩ | ⟨c1, c2, c3, c4, c5⟩
      · obtain ⟨rc1, e1, tr, h1, h2, h3, h4, h5, h6⟩ :=
          ih (e.step (.high_bw_read 2) (ops.high_bw_read e.dev 2).2.2) (- EIO) c2
            (by show left (ops.high_bw_read e.dev 2).2.2 < m; rw [c3]; omega)
        refine ⟨rc1, e1, Event.high_bw_read 2 :: tr, ?_, h2, h3, ?_, ?_, ?_⟩
        · simp only [wdb_ack_loop_spi]
          rw [if_neg (not_lt.mpr r1), if_neg c1, h1]
        · rw [h4]
          simp [escore_priv.step]
        · simp [hb_cmds, h5]
        · simp [hb_writes, h6]
      · obtain ⟨rc1, e1, tr, h1, h2, h3, h4, h5, h6⟩ :=
          ih ((e.step (.high_bw_read 2) (ops.high_bw_read e.dev 2).2.2).step (.high_bw_read 2)
            (ops.high_bw_read (ops.high_bw_read e.dev 2).2.2 2).2.2) (- EIO) c4
            (by show left (ops.high_bw_read (ops.high_bw_read e.dev 2).2.2 2).2.2 < m
                rw [c5]; omega)
        refine ⟨rc1, e1, Event.high_bw_read 2 :: Event.high_bw_read 2 :: tr, ?_, h2, h3,
          ?_, ?_, ?_⟩
        · simp only [wdb_ack_loop_spi]
          rw [if_neg (not_lt.mpr r1)]
          simp only [c1, if_true]
          simp only [escore_priv.step]
          rw [if_neg (not_lt.mpr c2), if_pos c3]
          simp only [escore_priv.step] at h1
          rw [h1]
        · rw [h4]
          simp [escore_priv.step]
        · simp [hb_cmds, h5]
        · simp [hb_writes, h6]

/-- The body of the chunk loop once the command and the data of the chunk have been
accepted: what remains is the acknowledgement loop and the test of `rc`. -/
theorem wdb_chunk_after_write {σ : Type} (h : escore_hdr) (ops : bus_ops σ) (buf : List Nat)
    (e : escore_priv σ) (off remaining : Nat)
    (hc : 0 ≤ (ops.high_bw_cmd e.dev (wdb_cmd_word h remaining)).1)
    (hop : u32 (ops.high_bw_cmd e.dev (wdb_cmd_word h remaining)).2.1 >>> 16
      = h.ES_WRITE_DATA_BLOCK)
    (hw : 0 ≤ (ops.high_bw_write (ops.high_bw_cmd e.dev (wdb_cmd_word h remaining)).2.2
      ((buf.drop off).take (wdb_size h remaining))).1) :
    wdb_chunk h ops buf e off remaining =
      (match (if h.CONFIG_SPI then wdb_ack_loop_spi h ops h.ES_SPI_MAX_RETRIES
                ((e.step (.high_bw_cmd (wdb_cmd_word h remaining))
                    (ops.high_bw_cmd e.dev (wdb_cmd_word h remaining)).2.2).step
                  (.high_bw_write ((buf.drop off).take (wdb_size h remaining)))
                  (ops.high_bw_write (ops.high_bw_cmd e.dev (wdb_cmd_word h remaining)).2.2
                    ((buf.drop off).take (wdb_size h remaining))).2)
                (ops.high_bw_write (ops.high_bw_cmd e.dev (wdb_cmd_word h remaining)).2.2
                  ((buf.drop off).take (wdb_size h remaining))).1
              else wdb_ack_loop h ops (h.ES_MAX_RETRIES + 5)
                ((e.step (.high_bw_cmd (wdb_cmd_word h remaining))
                    (ops.high_bw_cmd e.dev (wdb_cmd_word h remaining)).2.2).step
                  (.high_bw_write ((buf.drop off).take (wdb_size h remaining)))
                  (ops.high_bw_write (ops.high_bw_cmd e.dev (wdb_cmd_word h remaining)).2.2
                    ((buf.drop off).take (wdb_size h remaining))).2)
                (ops.high_bw_write (ops.high_bw_cmd e.dev (wdb_cmd_word h remaining)).2.2
                  ((buf.drop off).take (wdb_size h remaining))).1) with
        | (Flow.out rc, e) => (Flow.out rc, e)
        | (Flow.next rc, e) =>
          if rc = - EIO then (Flow.out rc, e) else (Flow.next (wdb_size h remaining), e)) := by
  have hs : (if remaining > h.ES_WDB_MAX_SIZE then h.ES_WDB_MAX_SIZE else remaining)
      = wdb_size h remaining := rfl
  have hww : u32 (h.ES_WRITE_DATA_BLOCK <<< 16) ||| (wdb_size h remaining &&& 0xFFFF)
      = wdb_cmd_word h remaining := rfl
  simp only [wdb_chunk, hs, hww]
  rw [if_neg (not_lt.mpr hc)]
  rw [if_neg (not_not.mpr hop)]
  have hw1 : ¬ (ops.high_bw_write
      (e.step (.high_bw_cmd (wdb_cmd_word h remaining))
        (ops.high_bw_cmd e.dev (wdb_cmd_word h remaining)).2.2).dev
      ((buf.drop off).take (wdb_size h remaining))).1 < 0 := not_lt.mpr hw
  rw [if_neg hw1]
  rfl


theorem wdb_chunk_never {σ : Type} (h : escore_hdr) (ops : bus_ops σ) (Due : σ → Prop)
    (count : σ → Nat) (hn : wdb_never_acks h ops Due count)
    (hb : h.CONFIG_SPI = true → 0 < h.ES_SPI_MAX_RETRIES) (buf : List Nat)
    (e : escore_priv σ) (off remaining : Nat)
    (hc : 0 ≤ (ops.high_bw_cmd e.dev (wdb_cmd_word h remaining)).1)
    (hop : u32 (ops.high_bw_cmd e.dev (wdb_cmd_word h remaining)).2.1 >>> 16
      = h.ES_WRITE_DATA_BLOCK)
    (hw : 0 ≤ (ops.high_bw_write (ops.high_bw_cmd e.dev (wdb_cmd_word h remaining)).2.2
      ((buf.drop off).take (wdb_size h remaining))).1)
    (hdue : Due (ops.high_bw_write (ops.high_bw_cmd e.dev (wdb_cmd_word h remaining)).2.2
      ((buf.drop off).take (wdb_size h remaining))).2) :
    ∃ e1 tr, wdb_chunk h ops buf e off remaining = (Flow.out (- EIO), e1)
      ∧ count e1.dev
        = count (ops.high_bw_write (ops.high_bw_cmd e.dev (wdb_cmd_word h remaining)).2.2
            ((buf.drop off).take (wdb_size h remaining))).2 + wdb_ack_budget h
      ∧ e1.trace = e.trace ++ ([Event.high_bw_cmd (wdb_cmd_word h remaining),
          Event.high_bw_write ((buf.drop off).take (wdb_size h remaining))] ++ tr)
      ∧ hb_cmds tr = [] ∧ hb_writes tr = []
      ∧ (h.CONFIG_SPI = false →
          tr = List.replicate (h.ES_MAX_RETRIES + 5) (Event.high_bw_read 4)) := by
  rw [wdb_chunk_after_write h ops buf e off remaining hc hop hw]
  cases hspi : h.CONFIG_SPI with
  | false =>
    obtain ⟨e1, h1, -, h3, h4⟩ :=
      wdb_ack_loop_never h ops Due count hspi hn (h.ES_MAX_RETRIES + 5)
        ((e.step (.high_bw_cmd (wdb_cmd_word h remaining))
            (ops.high_bw_cmd e.dev (wdb_cmd_word h remaining)).2.2).step
          (.high_bw_write ((buf.drop off).take (wdb_size h remaining)))
          (ops.high_bw_write (ops.high_bw_cmd e.dev (wdb_cmd_word h remaining)).2.2
            ((buf.drop off).take (wdb_size h remaining))).2)
        (ops.high_bw_write (ops.high_bw_cmd e.dev (wdb_cmd_word h remaining)).2.2
          ((buf.drop off).take (wdb_size h remaining))).1 hdue
    refine ⟨e1, List.replicate (h.ES_MAX_RETRIES + 5) (Event.high_bw_read 4), ?_, ?_, ?_,
      hb_cmds_replicate_read _ _, hb_writes_replicate_read _ _, fun _ => rfl⟩
    · simp only [Bool.false_eq_true, if_false]
      rw [h1, if_neg (by omega)]
      simp
    · rw [h3]
      simp [wdb_ack_budget, hspi, escore_priv.step]
    · rw [h4]
      simp [escore_priv.step]
  | true =>
    obtain ⟨k, hk⟩ := Nat.exists_eq_succ_of_ne_zero (Nat.pos_iff_ne_zero.mp (hb hspi))
    obtain ⟨e1, tr, h1, -, h3, h4, h5, h6⟩ :=
      wdb_ack_loop_spi_never h ops Due count hspi hn h.ES_SPI_MAX_RETRIES
        ((e.step (.high_bw_cmd (wdb_cmd_word h remaining))
            (ops.high_bw_cmd e.dev (wdb_cmd_word h remaining)).2.2).step
          (.high_bw_write ((buf.drop off).take (wdb_size h remaining)))
          (ops.high_bw_write (ops.high_bw_cmd e.dev (wdb_cmd_word h remaining)).2.2
            ((buf.drop off).take (wdb_size h remaining))).2)
        (ops.high_bw_write (ops.high_bw_cmd e.dev (wdb_cmd_word h remaining)).2.2
          ((buf.drop off).take (wdb_size h remaining))).1 hdue
    refine ⟨e1, tr, ?_, ?_, ?_, h5, h6, fun hf => absurd hf (by simp)⟩
    · simp only [if_true]
      rw [h1, if_neg (by omega)]
      simp
    · rw [h3]
      simp [wdb_ack_budget, hspi, escore_priv.step]
    · rw [h4]
      simp [escore_priv.step]

theorem wdb_chunk_late {σ : Type} (h : escore_hdr) (ops : bus_ops σ)
    (Idle Due : σ → Prop) (left : σ → Nat) (hl : wdb_late_acking h ops Idle Due left)
    (buf : List Nat) (e : escore_priv σ) (off remaining : Nat) (hi : Idle e.dev) :
    ∃ e1 tr, wdb_chunk h ops buf e off remaining = (Flow.next (wdb_size h remaining), e1)
      ∧ Idle e1.dev
      ∧ e1.trace = e.trace ++ ([Event.high_bw_cmd (wdb_cmd_word h remaining),
          Event.high_bw_write ((buf.drop off).take (wdb_size h remaining))] ++ tr)
      ∧ hb_cmds tr = [] ∧ hb_writes tr = [] := by
  obtain ⟨c1, c2, c3⟩ := hl.cmd_ok e.dev (wdb_cmd_word h remaining) hi
  obtain ⟨w1, w2, w3⟩ := hl.write_ok (ops.high_bw_cmd e.dev (wdb_cmd_word h remaining)).2.2
    ((buf.drop off).take (wdb_size h remaining)) c3
  rw [wdb_chunk_after_write h ops buf e off remaining c1 c2 w1]
  have hne : ∀ rc : Int, 0 ≤ rc → rc ≠ - EIO := by
    intro rc hrc
    have := neg_EIO_neg
    omega
  cases hspi : h.CONFIG_SPI with
  | false =>
    have w3' : left (ops.high_bw_write (ops.high_bw_cmd e.dev (wdb_cmd_word h remaining)).2.2
        ((buf.drop off).take (wdb_size h remaining))).2 < h.ES_MAX_RETRIES + 5 := by
      simpa [wdb_ack_budget, hspi] using w3
    obtain ⟨rc1, e1, tr, h1, h2, h3, h4, h5, h6⟩ :=
      wdb_ack_loop_late h ops Idle Due left hspi hl (h.ES_MAX_RETRIES + 5)
        ((e.step (.high_bw_cmd (wdb_cmd_word h remaining))
            (ops.high_bw_cmd e.dev (wdb_cmd_word h remaining)).2.2).step
          (.high_bw_write ((buf.drop off).take (wdb_size h remaining)))
          (ops.high_bw_write (ops.high_bw_cmd e.dev (wdb_cmd_word h remaining)).2.2
            ((buf.drop off).take (wdb_size h remaining))).2)
        (ops.high_bw_write (ops.high_bw_cmd e.dev (wdb_cmd_word h remaining)).2.2
          ((buf.drop off).take (wdb_size h remaining))).1 w2 w3'
    refine ⟨e1, tr, ?_, h3, ?_, h5, h6⟩
    · simp only [Bool.false_eq_true, if_false]
      rw [h1]
      simp [hne rc1 h2]
    · rw [h4]
      simp [escore_priv.step]
  | true =>
    have w3' : left (ops.high_bw_write (ops.high_bw_cmd e.dev (wdb_cmd_word h remaining)).2.2
        ((buf.drop off).take (wdb_size h remaining))).2 < h.ES_SPI_MAX_RETRIES := by
      simpa [wdb_ack_budget, hspi] using w3
    obtain ⟨rc1, e1, tr, h1, h2, h3, h4, h5, h6⟩ :=
      wdb_ack_loop_spi_late h ops Idle Due left hspi hl h.ES_SPI_MAX_RETRIES
        ((e.step (.high_bw_cmd (wdb_cmd_word h remaining))
            (ops.high_bw_cmd e.dev (wdb_cmd_word h remaining)).2.2).step
          (.high_bw_write ((buf.drop off).take (wdb_size h remaining)))
          (ops.high_bw_write (ops.high_bw_cmd e.dev (wdb_cmd_word h remaining)).2.2
            ((buf.drop off).take (wdb_size h remaining))).2)
        (ops.high_bw_write (ops.high_bw_cmd e.dev (wdb_cmd_word h remaining)).2.2
          ((buf.drop off).take (wdb_size h remaining))).1 w2 w3'
    refine ⟨e1, tr, ?_, h3, ?_, h5, h6⟩
    · simp only [if_true]
      rw [h1]
      simp [hne rc1 h2]
    · rw [h4]
      simp [escore_priv.step]

theorem wdb_loop_late {σ : Type} (h : escore_hdr) (ops : bus_ops σ)
    (Idle Due : σ → Prop) (left : σ → Nat) (hl : wdb_late_acking h ops Idle Due left)
    (hmax : 0 < h.ES_WDB_MAX_SIZE) (buf : List Nat) :
    ∀ (fuel : Nat) (e : escore_priv σ) (off remaining : Nat), remaining ≤ fuel → Idle e.dev →
      ∃ e1 t, wdb_loop h ops buf fuel e off remaining = some (Flow.next (), e1)
        ∧ Idle e1.dev ∧ e1.trace = e.trace ++ t
        ∧ (hb_writes t).flatten = (buf.drop off).take remaining := by
  intro fuel
  induction fuel with
  | zero =>
    intro e off remaining hf hi
    have : remaining = 0 := by omega
    subst this
    exact ⟨e, [], by simp [wdb_loop], hi, by simp, by simp [hb_writes]⟩
  | succ f ih =>
    intro e off remaining hf hi
    cases remaining with
    | zero => exact ⟨e, [], by simp [wdb_loop], hi, by simp, by simp [hb_writes]⟩
    | succ r =>
      obtain ⟨e1, tr, hc, hi1, ht1, -, hw1⟩ :=
        wdb_chunk_late h ops Idle Due left hl buf e off (r + 1) hi
      obtain ⟨hp1, -, hp3⟩ := wdb_size_pos h hmax r
      obtain ⟨e2, t, hl2, hi2, ht2, hj⟩ :=
        ih e1 (off + wdb_size h (r + 1)) (r + 1 - wdb_size h (r + 1)) (by omega) hi1
      refine ⟨e2, [Event.high_bw_cmd (wdb_cmd_word h (r + 1)),
          Event.high_bw_write ((buf.drop off).take (wdb_size h (r + 1)))] ++ tr ++ t,
        ?_, hi2, ?_, ?_⟩
      · simp only [wdb_loop]
        rw [hc]
        exact hl2
      · rw [ht2, ht1]
        simp
      · have hx : hb_writes ([Event.high_bw_cmd (wdb_cmd_word h (r + 1)),
            Event.high_bw_write ((buf.drop off).take (wdb_size h (r + 1)))] ++ tr ++ t)
            = (buf.drop off).take (wdb_size h (r + 1)) :: hb_writes t := by
          rw [hb_writes_append, hb_writes_append, hw1]
          rfl
        rw [hx, List.flatten_cons, hj]
        have hsplit : r + 1 = wdb_size h (r + 1) + (r + 1 - wdb_size h (r + 1)) := by omega
        conv_rhs => rw [hsplit, List.take_add, List.drop_drop]


/-- C16: let `escore_datablock_write` have arrived at a chunk (its loop continues from the
state `e`, `off`, `remaining + 1`) whose command and data the transport accepts. If the
transport then never acknowledges, every read succeeding, the function makes exactly the
budget of attempts (`ES_MAX_RETRIES + 5`, or `ES_SPI_MAX_RETRIES` when built for SPI), as
counted by the chip and, when not built for SPI, as that number of reads of 4 bytes, and
returns `-EIO`; after the data of that chunk the trace holds reads only, so no command or
data of a later chunk is sent. If instead the acknowledgement of every chunk arrives on an
attempt within the budget, every chunk is accepted: the function writes the whole buffer
and returns the length. -/
theorem escore_datablock_write_ack_budget {σ : Type} (h : escore_hdr) (ops : bus_ops σ) :
    (∀ (Due : σ → Prop) (count : σ → Nat), wdb_never_acks h ops Due count →
      (h.CONFIG_SPI = true → 0 < h.ES_SPI_MAX_RETRIES) →
      ∀ (buf : List Nat) (len fuel0 : Nat) (e0 : escore_priv σ) (fuel : Nat)
        (e : escore_priv σ) (off remaining : Nat),
        wdb_loop h ops buf fuel0 e0 0 len = wdb_loop h ops buf (fuel + 1) e off (remaining + 1) →
        0 ≤ (ops.high_bw_cmd e.dev (wdb_cmd_word h (remaining + 1))).1 →
        u32 (ops.high_bw_cmd e.dev (wdb_cmd_word h (remaining + 1))).2.1 >>> 16
          = h.ES_WRITE_DATA_BLOCK →
        0 ≤ (ops.high_bw_write (ops.high_bw_cmd e.dev (wdb_cmd_word h (remaining + 1))).2.2
          ((buf.drop off).take (wdb_size h (remaining + 1)))).1 →
        Due (ops.high_bw_write (ops.high_bw_cmd e.dev (wdb_cmd_word h (remaining + 1))).2.2
          ((buf.drop off).take (wdb_size h (remaining + 1)))).2 →
        ∃ e1 tr, escore_datablock_write h ops fuel0 e0 buf len = some (- EIO, e1)
          ∧ count e1.dev
            = count (ops.high_bw_write
                (ops.high_bw_cmd e.dev (wdb_cmd_word h (remaining + 1))).2.2
                ((buf.drop off).take (wdb_size h (remaining + 1)))).2 + wdb_ack_budget h
          ∧ e1.trace = e.trace ++ ([Event.high_bw_cmd (wdb_cmd_word h (remaining + 1)),
              Event.high_bw_write ((buf.drop off).take (wdb_size h (remaining + 1)))] ++ tr)
          ∧ hb_cmds tr = [] ∧ hb_writes tr = []
          ∧ (h.CONFIG_SPI = false →
              tr = List.replicate (h.ES_MAX_RETRIES + 5) (Event.high_bw_read 4)))
    ∧ (∀ (Idle Due : σ → Prop) (left : σ → Nat), wdb_late_acking h ops Idle Due left →
        0 < h.ES_WDB_MAX_SIZE →
        ∀ (buf : List Nat) (fuel : Nat) (e : escore_priv σ), buf.length ≤ fuel → Idle e.dev →
          ∃ e1 t, escore_datablock_write h ops fuel e buf buf.length
              = some (to_int buf.length, e1)
            ∧ e1.trace = e.trace ++ t ∧ (hb_writes t).flatten = buf) := by
  constructor
  · intro Due count hn hb buf len fuel0 e0 fuel e off remaining hreach hc hop hw hdue
    obtain ⟨e1, tr, h1, h2, h3, h4, h5, h6⟩ :=
      wdb_chunk_never h ops Due count hn hb buf e off (remaining + 1) hc hop hw hdue
    refine ⟨e1, tr, ?_, h2, h3, h4, h5, h6⟩
    simp only [escore_datablock_write, hreach, wdb_loop, h1]
  · intro Idle Due left hl hmax buf fuel e hf hi
    obtain ⟨e1, t, h1, -, h3, h4⟩ :=
      wdb_loop_late h ops Idle Due left hl hmax buf fuel e 0 buf.length hf hi
    refine ⟨e1, t, ?_, h3, ?_⟩
    · simp only [escore_datablock_write, h1]
    · rw [h4]
      simp

theorem nack_ops_never_acks :
    wdb_never_acks sample_hdr nack_ops (fun _ => True) (fun s => s) := by
  intro s _
  simp only [ack_rejected]
  rw [if_neg (by decide)]
  refine ⟨le_refl _, ?_, trivial, rfl⟩
  simp [nack_ops, bytes_stored, bytes_u32, wdb_ack_word, sample_hdr, u32, List.range,
    List.range.loop]

theorem late_ops_late_acking :
    wdb_late_acking sample_hdr late_ops (fun _ => True) (fun _ => True) (fun s => s) := by
  refine ⟨?_, ?_, ?_, ?_⟩
  · intro s w _
    refine ⟨le_refl _, ?_, trivial⟩
    show u32 0x802f0000 >>> 16 = 0x802f
    decide
  · intro s b _
    refine ⟨le_refl _, trivial, ?_⟩
    show 2 < wdb_ack_budget sample_hdr
    decide
  · intro s _ hs
    subst hs
    simp only [ack_accepted]
    rw [if_neg (by decide)]
    refine ⟨le_refl _, ?_, trivial⟩
    simp [late_ops, bytes_stored, bytes_u32, wdb_ack_word, sample_hdr, u32, List.range,
      List.range.loop]
  · intro s _ hs
    have hne : s ≠ 0 := by omega
    simp only [ack_rejected]
    rw [if_neg (by decide)]
    simp [late_ops, hne, bytes_stored, bytes_u32, wdb_ack_word, sample_hdr, u32, List.range,
      List.range.loop]

/-- Witness of C16: the transport that never acknowledges, at the first chunk of a buffer
of 9 bytes, and the transport that acknowledges on the third attempt. -/
theorem escore_datablock_write_ack_budget_witness :
    (∃ e1 tr, escore_datablock_write sample_hdr nack_ops 9 (sample_priv 0)
          [1, 2, 3, 4, 5, 6, 7, 8, 9] 9 = some (- EIO, e1)
        ∧ e1.dev
          = (nack_ops.high_bw_write
              (nack_ops.high_bw_cmd (sample_priv (0 : Nat)).dev (wdb_cmd_word sample_hdr (8 + 1))).2.2
              ((([1, 2, 3, 4, 5, 6, 7, 8, 9] : List Nat).drop 0).take
                (wdb_size sample_hdr (8 + 1)))).2 + wdb_ack_budget sample_hdr
        ∧ e1.trace = (sample_priv (0 : Nat)).trace
            ++ ([Event.high_bw_cmd (wdb_cmd_word sample_hdr (8 + 1)),
              Event.high_bw_write ((([1, 2, 3, 4, 5, 6, 7, 8, 9] : List Nat).drop 0).take
                (wdb_size sample_hdr (8 + 1)))] ++ tr)
        ∧ hb_cmds tr = [] ∧ hb_writes tr = []
        ∧ (sample_hdr.CONFIG_SPI = false →
            tr = List.replicate (sample_hdr.ES_MAX_RETRIES + 5) (Event.high_bw_read 4)))
    ∧ (∃ e1 t, escore_datablock_write sample_hdr late_ops 9 (sample_priv 0)
          [1, 2, 3, 4, 5, 6, 7, 8, 9] ([1, 2, 3, 4, 5, 6, 7, 8, 9] : List Nat).length
            = some (to_int ([1, 2, 3, 4, 5, 6, 7, 8, 9] : List Nat).length, e1)
        ∧ e1.trace = (sample_priv (0 : Nat)).trace ++ t
        ∧ (hb_writes t).flatten = [1, 2, 3, 4, 5, 6, 7, 8, 9]) :=
  ⟨(escore_datablock_write_ack_budget sample_hdr nack_ops).1 (fun _ => True) (fun s => s)
      nack_ops_never_acks (by decide) [1, 2, 3, 4, 5, 6, 7, 8, 9] 9 9 (sample_priv 0) 8
      (sample_priv 0) 0 8 rfl (le_refl _) (by decide) (le_refl _) trivial,
    (escore_datablock_write_ack_budget sample_hdr late_ops).2 (fun _ => True) (fun _ => True)
      (fun s => s) late_ops_late_acking (by decide) [1, 2, 3, 4, 5, 6, 7, 8, 9] 9 (sample_priv 0)
      (by decide) trivial⟩

end Escore
